import Mathlib

/-! The package ip8s: endpoint resolution, change notification and broadcast fan-out.

A shallow embedding of `notifier.go` and `publisher.go`.

* Go slices are Lean lists; a `nil` slice and an empty slice are both `[]`
  (the code only ever takes `len` and ranges over them).
* A Go `error` value that may be `nil` is an `Option error`; a call returning
  `(value, error)` is an `Except error value`.
* Go strings are Lean strings.  Go compares strings bytewise; on UTF-8 text this
  is the lexicographic order of the code point sequences.
-/

set_option linter.dupNamespace false

namespace ip8s

/-! ## Errors (`error`, `github.com/pkg/errors`, `multiError`) -/

/-- Go `error` values that occur in the package: an error without a cause (`base`, known
by its message), the two layers that `errors.Wrap` puts around an error (`withMessage`,
and `withStack` around it), and the package's own `multiError` slice. -/
inductive error where
  | base (msg : String)
  | withMessage (cause : error) (msg : String)
  | withStack (err : error)
  | multiError (errs : List error)

/-- The delimiter of `multiError.Error`. -/
def multiErrorSep : String := "\n-----------------------\n"

/-- Go `strings.Join(elems, sep)`. -/
def stringsJoin : List String → String → String
  | [], _ => ""
  | [s], _ => s
  | s :: t :: rest, sep => s ++ sep ++ stringsJoin (t :: rest) sep

mutual
/-- The `Error()` method: `withMessage` prints `msg + ": " + cause.Error()`, `withStack`
prints the error it holds; `multiError.Error` collects the messages and joins them. -/
def error.Error : error → String
  | .base msg => msg
  | .withMessage cause msg => msg ++ ": " ++ cause.Error
  | .withStack err => err.Error
  | .multiError errs => stringsJoin (error.msgs errs) multiErrorSep
/-- The loop `for i, msg := range e { msgs[i] = msg.Error() }` of `multiError.Error`. -/
def error.msgs : List error → List String
  | [] => []
  | msg :: rest => msg.Error :: error.msgs rest
end

/-- The method `Cause()` of the errors that have one: `withMessage` returns the error it
annotates, `withStack` the error it holds; the other errors have no such method. -/
def error.Cause? : error → Option error
  | .withMessage cause _ => some cause
  | .withStack err => some err
  | _ => none

/-- The function `errors.Cause(err)`: follow `Cause()` as long as the error has one. -/
def errors.Cause : error → error
  | .withMessage cause _ => errors.Cause cause
  | .withStack err => errors.Cause err
  | .base msg => .base msg
  | .multiError errs => .multiError errs

/-- The function `errors.Wrap(err, message)`: `nil` for a `nil` error, otherwise `err`
annotated with `message` (`withMessage`) and then with the stack of the caller
(`withStack`; the stack itself is not kept). -/
def errors.Wrap (err : Option error) (message : String) : Option error :=
  match err with
  | none => none
  | some e => some (.withStack (.withMessage e message))

/-! ## Cluster members (`k8s.io/api/core/v1`) -/

/-- One entry of `Node.Status.Conditions`. -/
structure NodeCondition where
  Typ : String
  Status : String
  deriving DecidableEq, Repr

/-- One entry of `Node.Status.Addresses`. -/
structure NodeAddress where
  Typ : String
  Address : String
  deriving DecidableEq, Repr

/-- The fields of `v1.NodeStatus` the package reads. -/
structure NodeStatus where
  Conditions : List NodeCondition
  Addresses : List NodeAddress
  deriving DecidableEq, Repr

/-- The fields of `v1.Node` the package reads. -/
structure Node where
  Status : NodeStatus
  deriving DecidableEq, Repr

/-- The constant `v1.NodeReady`. -/
def NodeReady : String := "Ready"
/-- The constant `v1.NodeMemoryPressure`. -/
def NodeMemoryPressure : String := "MemoryPressure"
/-- The constant `v1.ConditionTrue`. -/
def ConditionTrue : String := "True"
/-- The constant `v1.ConditionFalse`. -/
def ConditionFalse : String := "False"
/-- The constant `v1.NodeExternalIP`. -/
def NodeExternalIP : String := "ExternalIP"
/-- The constant `v1.NodeInternalIP`. -/
def NodeInternalIP : String := "InternalIP"

/-- The wrapper `type node struct { node *api.Node }`. -/
structure node where
  node : Node
  deriving DecidableEq, Repr

/-- The loop of `node.Available`: return `true` at the first condition that is
`Ready` with status `True`. -/
def node.Available.loop : List NodeCondition → Bool
  | [] => false
  | condition :: rest =>
    if condition.Typ = NodeReady ∧ condition.Status = ConditionTrue then true
    else node.Available.loop rest

/-- The method `node.Available`. -/
def node.Available (n : ip8s.node) : Bool :=
  node.Available.loop n.node.Status.Conditions

/-- The loop of `node.IPs`: append the address of every `ExternalIP` entry. -/
def node.IPs.loop (ips : List String) : List NodeAddress → List String
  | [] => ips
  | addr :: rest =>
    if addr.Typ = NodeExternalIP then node.IPs.loop (ips ++ [addr.Address]) rest
    else node.IPs.loop ips rest

/-- The method `node.IPs`. -/
def node.IPs (n : ip8s.node) : List String :=
  node.IPs.loop [] n.node.Status.Addresses

/-! ## `sort.Strings` -/

/-- Go `a <= b` on strings. -/
def stringLE (a b : String) : Prop := a.data ≤ b.data

instance stringLE.decidable : DecidableRel stringLE :=
  fun a b => inferInstanceAs (Decidable (a.data ≤ b.data))

/-- Go `sort.Strings`: the argument in increasing order.  The library's algorithm is
not part of the package; an insertion sort stands for it, and `sortStrings_unique`
shows that every sorting algorithm returns this same list. -/
def sortStrings (ips : List String) : List String :=
  List.insertionSort stringLE ips

/-! ## `nodeLister` -/

/-- The two functions of `k8s.io/apimachinery/pkg/labels` that `List` calls, over an
abstract type `σ` of parsed selectors. -/
structure labels (σ : Type) where
  NewSelector : σ
  Parse : String → Except error σ

/-- The wrapper `type nodeLister struct { lister v1.NodeLister }`; the field is the
informer cache's `List(selector)` at the time of the call. -/
structure nodeLister (σ : Type) where
  lister : σ → Except error (List Node)

/-- The loop of `nodeLister.List` over the listed nodes. -/
def nodeLister.List.loop (ips : List String) : List Node → List String
  | [] => ips
  | nod :: rest =>
    let n : node := ⟨nod⟩
    if n.Available then nodeLister.List.loop (ips ++ n.IPs) rest
    else nodeLister.List.loop ips rest

/-- The first lines of `nodeLister.List`: the selector that is handed to the lister. -/
def nodeLister.List.label {σ : Type} (lab : labels σ) (sel : String) : Except error σ :=
  if sel ≠ "" then
    match lab.Parse sel with
    | .error err => .error (.withStack (.withMessage err "invalid node selector"))
    | .ok label => .ok label
  else .ok lab.NewSelector

/-- The method `nodeLister.List`. -/
def nodeLister.List {σ : Type} (lab : labels σ) (l : nodeLister σ) (sel : String) :
    Except error (List String) :=
  match nodeLister.List.label lab sel with
  | .error err => .error err
  | .ok label =>
    match l.lister label with
    | .error err => .error (.withStack (.withMessage err "failed to list the nodes"))
    | .ok nodes => .ok (sortStrings (nodeLister.List.loop [] nodes))

/-! ## `notifier` -/

/-- The function `diff`, loop part: `for i := range one { if one[i] != two[i] ... }`,
run on two slices of the same length. -/
def diff.loop : List String → List String → Bool
  | a :: one, b :: two => if a ≠ b then true else diff.loop one two
  | _, _ => false

/-- The function `diff`. -/
def diff (one two : List String) : Bool :=
  if one.length ≠ two.length then true
  else diff.loop one two

/-- The session state `type notifier struct` (the observer plays no part in `sendIPs`). -/
structure notifier (σ : Type) where
  lister : nodeLister σ
  selector : String
  subsequent : Bool
  lastIPs : List String

/-- The output channel, as the sequence of values sent on it so far (oldest first). -/
abbrev Chan := List (List String)

/-- The constructor `newNotifierFromClient`: `&notifier{observer, lister, selector, false, nil}`. -/
def newNotifierFromClient {σ : Type} (lister : nodeLister σ) (selector : String) : notifier σ :=
  { lister := lister, selector := selector, subsequent := false, lastIPs := [] }

/-- The method `notifier.sendIPs`: the session after the call and the channel after the call. -/
def notifier.sendIPs {σ : Type} (lab : labels σ) (n : notifier σ) (c : Chan) : notifier σ × Chan :=
  match n.lister.List lab n.selector with
  | .error _ => (n, c)
  | .ok ips =>
    let sent : notifier σ × Chan :=
      if !n.subsequent || diff n.lastIPs ips then ({ n with lastIPs := ips }, c ++ [ips])
      else (n, c)
    ({ sent.1 with subsequent := true }, sent.2)

/-- The calls of `sender(c)` that `nodeObserver.Observe` makes, one after the cache sync
and one per add, update or delete event, each against the cache of that moment. -/
def notifier.sendAll {σ : Type} (lab : labels σ) (n : notifier σ) (c : Chan) :
    List (nodeLister σ) → notifier σ × Chan
  | [] => (n, c)
  | l :: rest =>
    let next := notifier.sendIPs lab { n with lister := l } c
    notifier.sendAll lab next.1 next.2 rest

/-- The resolutions of `rs` that differ from their predecessor, the predecessor of the
first one being `last`. -/
def emittedAfter (last : List String) (rs : List (List String)) : List (List String) :=
  ((List.zip (last :: rs) rs).filter (fun p => decide (p.2 ≠ p.1))).map Prod.snd

/-- The emissions the emission rule prescribes for the resolutions `r1..rn`: `r1`, then
every `ri` that differs from `r(i-1)`. -/
def emissionRule : List (List String) → List (List String)
  | [] => []
  | r :: rs => r :: emittedAfter r rs

/-! ## `multiBroadcaster` -/

/-- A publisher: the outcome of its `Broadcast(ctx, ips)`, `none` for `nil`. -/
abbrev Broadcaster := List String → Option error

/-- The slice `type multiBroadcaster []Broadcaster`; a `nil` slot is `none`. -/
abbrev multiBroadcaster := List (Option Broadcaster)

/-- The shared slice `errs` of one `Broadcast` call, with a log of the publishers that
were invoked (the log is not in the source; it records the calls `b[i].Broadcast`). -/
structure multiBroadcaster.fanout where
  errs : List error
  invoked : List Nat

/-- The goroutine `func(i int)` of `multiBroadcaster.Broadcast`, run to its end. -/
def multiBroadcaster.task (b : multiBroadcaster) (ips : List String)
    (s : multiBroadcaster.fanout) (i : Nat) : multiBroadcaster.fanout :=
  match b[i]? with
  | none => s
  | some none => s
  | some (some p) =>
    match p ips with
    | none => { s with invoked := s.invoked ++ [i] }
    | some err => { errs := s.errs ++ [err], invoked := s.invoked ++ [i] }

/-- The goroutines of one `Broadcast` call up to `w.Wait()`.  The tasks share only `errs`,
appended to under the mutex, so a run is determined by the order in which the tasks
take their turn, `order`, a permutation of the indices of `b`. -/
def multiBroadcaster.tasks (b : multiBroadcaster) (ips : List String) (order : List Nat) :
    multiBroadcaster.fanout :=
  order.foldl (multiBroadcaster.task b ips) { errs := [], invoked := [] }

/-- The method `multiBroadcaster.Broadcast`, for the completion order `order`. -/
def multiBroadcaster.Broadcast (b : multiBroadcaster) (ips : List String) (order : List Nat) :
    Option error :=
  let errs := (multiBroadcaster.tasks b ips order).errs
  if errs.length = 0 then none
  else if errs.length = 1 then errors.Wrap errs[0]? "one broadcast failed"
  else errors.Wrap (some (.multiError errs)) "multiple error occured during broadcasting"

/-- The error, if any, that the publisher in slot `i` returns. -/
def multiBroadcaster.failureAt (b : multiBroadcaster) (ips : List String) (i : Nat) :
    Option error :=
  match b[i]? with
  | some (some p) => p ips
  | _ => none

/-- Whether slot `i` of `b` holds a publisher. -/
def multiBroadcaster.hasPublisher (b : multiBroadcaster) (i : Nat) : Bool :=
  match b[i]? with
  | some (some _) => true
  | _ => false

/-- The failures of the publishers of `b` in the order of registration. -/
def multiBroadcaster.failures (b : multiBroadcaster) (ips : List String) : List error :=
  b.filterMap (fun slot => slot.bind (fun p => p ips))

/-! ## Go maps with string keys -/

/-- The test `_, exists := m[k]`, on a map given by its entries. -/
def mapHas {β : Type} (m : List (String × β)) (k : String) : Bool :=
  m.any (fun entry => decide (entry.1 = k))

/-- The lookup `m[k]`, on a map given by its entries. -/
def mapGet {β : Type} (m : List (String × β)) (k : String) : Option β :=
  (m.find? (fun entry => decide (entry.1 = k))).map Prod.snd

/-- The statement `delete(m, k)`. -/
def mapDelete {β : Type} (m : List (String × β)) (k : String) : List (String × β) :=
  m.filter (fun entry => !decide (entry.1 = k))

/-- The assignment `m[k] = v`: the entry for `k`, if any, is replaced. -/
def mapSet {β : Type} (m : List (String × β)) (k : String) (v : β) : List (String × β) :=
  mapDelete m k ++ [(k, v)]

/-- The order in which a `range` statement visits the entries of a map; Go leaves it
unspecified, so it is a parameter. -/
structure mapOrder where
  range : {β : Type} → List (String × β) → List (String × β)

/-- A `range` order visits every entry of the map once. -/
def mapOrder.valid (ord : mapOrder) : Prop :=
  ∀ (β : Type) (m : List (String × β)), (ord.range m).Perm m

/-- The order that visits the entries as they are stored. -/
def storedOrder : mapOrder := { range := fun m => m }

/-- The order that visits the entries from the last stored to the first. -/
def reversedOrder : mapOrder := { range := fun m => m.reverse }

/-! ## `cloudflareDNSBroadcaster` -/

/-- The fields of `cloudflare.DNSRecord` the package reads or writes. -/
structure DNSRecord where
  ID : String
  Typ : String
  Name : String
  Content : String
  deriving DecidableEq, Repr

/-- The calls of the DNS API that change the zone. -/
inductive apiCall where
  | DeleteDNSRecord (zoneID recordID : String)
  | UpdateDNSRecord (zoneID recordID : String) (rr : DNSRecord)
  | CreateDNSRecord (zoneID : String) (rr : DNSRecord)
  deriving DecidableEq, Repr

/-- The methods of `cloudflare.API` that the package calls, each with its outcome. -/
structure cloudflareAPI where
  ZoneIDByName : String → Except error String
  DNSRecords : String → DNSRecord → Except error (List DNSRecord)
  DeleteDNSRecord : String → String → Option error
  UpdateDNSRecord : String → String → DNSRecord → Option error
  CreateDNSRecord : String → DNSRecord → Option error

/-- The outcome of a call on the API. -/
def cloudflareAPI.run (api : cloudflareAPI) : apiCall → Option error
  | .DeleteDNSRecord zoneID recordID => api.DeleteDNSRecord zoneID recordID
  | .UpdateDNSRecord zoneID recordID rr => api.UpdateDNSRecord zoneID recordID rr
  | .CreateDNSRecord zoneID rr => api.CreateDNSRecord zoneID rr

/-- The struct `type cloudflareDNSBroadcaster struct { api; dnsName }`. -/
structure cloudflareDNSBroadcaster where
  api : cloudflareAPI
  dnsName : String

/-- The three maps of `splitIPs`. -/
structure splitIPs.groups where
  newIPs : List (String × Unit)
  commonIPs : List (String × DNSRecord)
  oldIPs : List (String × DNSRecord)

/-- The first loop of `splitIPs`: `for _, ip := range ips { newIPs[ip] = struct{}{} }`. -/
def splitIPs.fill (newIPs : List (String × Unit)) : List String → List (String × Unit)
  | [] => newIPs
  | ip :: rest => splitIPs.fill (mapSet newIPs ip ()) rest

/-- The body of the second loop of `splitIPs`. -/
def splitIPs.step (g : splitIPs.groups) (record : DNSRecord) : splitIPs.groups :=
  let ip := record.Content
  if mapHas g.newIPs ip then
    { newIPs := mapDelete g.newIPs ip, commonIPs := mapSet g.commonIPs ip record,
      oldIPs := g.oldIPs }
  else
    { newIPs := g.newIPs, commonIPs := g.commonIPs, oldIPs := mapSet g.oldIPs ip record }

/-- The method `cloudflareDNSBroadcaster.splitIPs` (it does not use its receiver). -/
def cloudflareDNSBroadcaster.splitIPs (ips : List String) (records : List DNSRecord) :
    splitIPs.groups :=
  records.foldl splitIPs.step { newIPs := splitIPs.fill [] ips, commonIPs := [], oldIPs := [] }

/-- The method `cloudflareDNSBroadcaster.newRecord`. -/
def cloudflareDNSBroadcaster.newRecord (b : cloudflareDNSBroadcaster) (ip : String) :
    DNSRecord :=
  { ID := "", Typ := "A", Name := b.dnsName, Content := ip }

/-- One of the three loops of `cloudflareDNSBroadcaster.Broadcast`: for each entry issue
`call`, and at the first error return it wrapped with `message`.  The second component is
the list of the calls issued so far. -/
def cloudflareDNSBroadcaster.Broadcast.loop {α : Type} (api : cloudflareAPI)
    (call : α → apiCall) (message : α → String) (issued : List apiCall) :
    List α → Option error × List apiCall
  | [] => (none, issued)
  | entry :: rest =>
    match api.run (call entry) with
    | some err => (errors.Wrap (some err) (message entry), issued ++ [call entry])
    | none =>
      cloudflareDNSBroadcaster.Broadcast.loop api call message (issued ++ [call entry]) rest

/-- The deletions, updates and creations of `cloudflareDNSBroadcaster.Broadcast`, for the
groups `g` and the zone `zoneID`. -/
def cloudflareDNSBroadcaster.Broadcast.apply (b : cloudflareDNSBroadcaster) (ord : mapOrder)
    (zoneID : String) (g : splitIPs.groups) : Option error × List apiCall :=
  let deleted := cloudflareDNSBroadcaster.Broadcast.loop b.api
    (fun entry : String × DNSRecord => .DeleteDNSRecord zoneID entry.2.ID)
    (fun entry => "failed to delete a record id:" ++ entry.2.ID) [] (ord.range g.oldIPs)
  match deleted.1 with
  | some err => (some err, deleted.2)
  | none =>
    let updated := cloudflareDNSBroadcaster.Broadcast.loop b.api
      (fun entry : String × DNSRecord =>
        .UpdateDNSRecord zoneID entry.2.ID (b.newRecord entry.1))
      (fun entry => "failed to update a record id:" ++ entry.2.ID) deleted.2
      (ord.range g.commonIPs)
    match updated.1 with
    | some err => (some err, updated.2)
    | none =>
      cloudflareDNSBroadcaster.Broadcast.loop b.api
        (fun entry : String × Unit => .CreateDNSRecord zoneID (b.newRecord entry.1))
        (fun entry => "failed to create a record ip:" ++ entry.1) updated.2
        (ord.range g.newIPs)

/-- The method `cloudflareDNSBroadcaster.Broadcast`: the returned error and the calls
issued on the zone, in order. -/
def cloudflareDNSBroadcaster.Broadcast (b : cloudflareDNSBroadcaster) (ord : mapOrder)
    (ips : List String) : Option error × List apiCall :=
  match b.api.ZoneIDByName b.dnsName with
  | .error err =>
    (errors.Wrap (some err) ("unable to determine the zone for dns=" ++ b.dnsName), [])
  | .ok zoneID =>
    match b.api.DNSRecords zoneID { ID := "", Typ := "A", Name := b.dnsName, Content := "" } with
    | .error err =>
      (errors.Wrap (some err)
        ("failed to fetch A-records for zoneID:" ++ zoneID ++ ",dns:" ++ b.dnsName), [])
    | .ok records =>
      cloudflareDNSBroadcaster.Broadcast.apply b ord zoneID
        (cloudflareDNSBroadcaster.splitIPs ips records)

/-- The remote records whose content is the address `a`, in the order of the listing. -/
def recordsAt (records : List DNSRecord) (a : String) : List DNSRecord :=
  records.filter (fun record => decide (record.Content = a))

/-- The calls `cloudflareDNSBroadcaster.Broadcast` has to issue for the groups `g`: one
deletion per obsolete entry, one update per matching entry, one creation per missing
entry, each group in its `range` order. -/
def cloudflareDNSBroadcaster.Broadcast.planned (b : cloudflareDNSBroadcaster) (ord : mapOrder)
    (zoneID : String) (g : splitIPs.groups) : List apiCall :=
  (ord.range g.oldIPs).map (fun entry => apiCall.DeleteDNSRecord zoneID entry.2.ID) ++
  (ord.range g.commonIPs).map
    (fun entry => apiCall.UpdateDNSRecord zoneID entry.2.ID (b.newRecord entry.1)) ++
  (ord.range g.newIPs).map (fun entry => apiCall.CreateDNSRecord zoneID (b.newRecord entry.1))

/-! ## The chat message (`text/template`, `slackTmpl`) -/

/-- The function `join` of `publisher.go`. -/
def join (sep : String) (a : List String) : String :=
  stringsJoin a sep

/-- The values the template meets: a string, a slice of strings, the map
`{"DNSName": dns, "IPs": ips}` that `execTemplate` builds, and the value of a key that
the map does not have. -/
inductive tmplValue where
  | str (s : String)
  | strs (a : List String)
  | data (DNSName : String) (IPs : List String)
  | noValue

/-- The operands of the actions of the template: the dot, a field of the dot, and a
string constant. -/
inductive tmplArg where
  | dot
  | field (name : String)
  | lit (s : String)

/-- The nodes of a parsed template.  A text node keeps the text as written together with
the trim markers of its neighbours (`-}}` before it, `{{-` after it); a `template` node
carries the body that `define` has given to its name. -/
inductive tmplNode where
  | text (raw : String) (trimLeft trimRight : Bool)
  | print (arg : tmplArg)
  | call (fn : String) (args : List tmplArg)
  | withElse (arg : tmplArg) (body orElse : List tmplNode)
  | template (name : String) (arg : tmplArg) (body : List tmplNode)

/-- The white space that a trim marker removes: space, tab, carriage return, newline. -/
def isSpaceChar (c : Char) : Bool :=
  c.toNat = 32 || c.toNat = 9 || c.toNat = 13 || c.toNat = 10

/-- The text a text node emits: the text as written, without the white space that the
trim markers of its neighbours remove. -/
def trimText (raw : String) (trimLeft trimRight : Bool) : String :=
  let afterLeft := if trimLeft then raw.data.dropWhile isSpaceChar else raw.data
  let afterRight :=
    if trimRight then (afterLeft.reverse.dropWhile isSpaceChar).reverse else afterLeft
  String.mk afterRight

/-- The value of an operand. -/
def tmplArg.eval (dot : tmplValue) : tmplArg → Except error tmplValue
  | .dot => .ok dot
  | .lit s => .ok (.str s)
  | .field name =>
    match dot with
    | .data dns ips =>
      if name = "DNSName" then .ok (.str dns)
      else if name = "IPs" then .ok (.strs ips)
      else .ok .noValue
    | _ => .error (.base ("can't evaluate field " ++ name))

/-- The values of the operands of a function call. -/
def tmplArg.evalAll (dot : tmplValue) : List tmplArg → Except error (List tmplValue)
  | [] => .ok []
  | arg :: rest =>
    match arg.eval dot with
    | .error err => .error err
    | .ok v =>
      match tmplArg.evalAll dot rest with
      | .error err => .error err
      | .ok vs => .ok (v :: vs)

/-- The text that printing a value writes. -/
def tmplValue.print : tmplValue → String
  | .str s => s
  | .strs a => "[" ++ stringsJoin a " " ++ "]"
  | .data dns ips => "map[DNSName:" ++ dns ++ " IPs:[" ++ stringsJoin ips " " ++ "]]"
  | .noValue => "<no value>"

/-- The truth of a value in `with`: a string or a slice is true when it is not empty. -/
def tmplValue.isTrue : tmplValue → Bool
  | .str s => decide (s ≠ "")
  | .strs a => decide (a.length ≠ 0)
  | .data _ _ => true
  | .noValue => false

/-- The function map `{"join": join}` that `execDefaultSlackTemplate` installs. -/
def tmplFuncs (fn : String) (args : List tmplValue) : Except error tmplValue :=
  if fn = "join" then
    match args with
    | [.str sep, .strs a] => .ok (.str (join sep a))
    | _ => .error (.base "wrong arguments for join")
  else .error (.base ("function not defined: " ++ fn))

mutual
/-- The execution of one node on the dot `dot`: the text it writes. -/
def tmplNode.exec : tmplNode → tmplValue → Except error String
  | .text raw trimLeft trimRight, _ => .ok (trimText raw trimLeft trimRight)
  | .print arg, dot =>
    match arg.eval dot with
    | .error err => .error err
    | .ok v => .ok v.print
  | .call fn args, dot =>
    match tmplArg.evalAll dot args with
    | .error err => .error err
    | .ok vs =>
      match tmplFuncs fn vs with
      | .error err => .error err
      | .ok v => .ok v.print
  | .withElse arg body orElse, dot =>
    match arg.eval dot with
    | .error err => .error err
    | .ok v => if v.isTrue then tmplNode.execList body v else tmplNode.execList orElse dot
  | .template _ arg body, dot =>
    match arg.eval dot with
    | .error err => .error err
    | .ok v => tmplNode.execList body v
/-- The execution of a list of nodes, one after the other. -/
def tmplNode.execList : List tmplNode → tmplValue → Except error String
  | [], _ => .ok ""
  | n :: rest, dot =>
    match n.exec dot with
    | .error err => .error err
    | .ok s =>
      match tmplNode.execList rest dot with
      | .error err => .error err
      | .ok t => .ok (s ++ t)
end

/-- The template `italic` that `slackTmpl` defines:
`{{- define "italic" -}} ⏎ _{{ join "\t" . }}_ ⏎ {{- end -}}`. -/
def italicTmpl : List tmplNode :=
  [.text "\n_" true false, .call "join" [.lit "\t", .dot], .text "_\n" false true]

/-- The parse of the variable `slackTmpl`.  Its source starts with a newline, defines
`italic`, and goes on, after a newline, with
`IPs for {{ .DNSName }} {{ with .IPs }}changed: ⏎ {{ template "italic" . }}{{ else }}were deleted{{ end -}} ⏎`. -/
def slackTmpl : List tmplNode :=
  [.text "\n" false true,
   .text "\nIPs for " true false,
   .print (.field "DNSName"),
   .text " " false false,
   .withElse (.field "IPs")
     [.text "changed:\n" false false, .template "italic" .dot italicTmpl]
     [.text "were deleted" false false],
   .text "\n" true false]

/-- The function `execTemplate`. -/
def execTemplate (tmpl : List tmplNode) (dns : String) (ips : List String) :
    Except error String :=
  tmplNode.execList tmpl (.data dns ips)

/-- The function `execDefaultSlackTemplate`: parsing the constant `slackTmpl` succeeds
and gives the nodes above. -/
def execDefaultSlackTemplate (dns : String) (ips : List String) : Except error String :=
  execTemplate slackTmpl dns ips

/-! ## `slackBroadcaster` -/

/-- The loop of `fmt.Sprintf` over the format, for string operands: the verb `%s` writes
the next operand as it is, `%%` writes a percent sign, any other character writes
itself; a `%s` without an operand writes `%!s(MISSING)`. -/
def fmtSprintf.loop : List Char → List String → String
  | [], _ => ""
  | [c], _ => String.singleton c
  | c :: next :: rest, args =>
    if c.toNat = 37 ∧ next.toNat = 115 then
      match args with
      | [] => "%!s(MISSING)" ++ fmtSprintf.loop rest []
      | arg :: others => arg ++ fmtSprintf.loop rest others
    else if c.toNat = 37 ∧ next.toNat = 37 then "%" ++ fmtSprintf.loop rest args
    else String.singleton c ++ fmtSprintf.loop (next :: rest) args

/-- Go `fmt.Sprintf(format, args...)` on string operands. -/
def fmtSprintf (format : String) (args : List String) : String :=
  fmtSprintf.loop format.data args

/-- The struct `type slackBroadcaster struct` (the API client plays no part in
`newMessage`). -/
structure slackBroadcaster where
  roomID : String
  dnsName : String

/-- The text object that `slack.NewTextBlockObject(type, text, emoji, verbatim)` builds. -/
structure TextBlockObject where
  Typ : String
  Text : String
  Emoji : Bool
  Verbatim : Bool
  deriving DecidableEq, Repr

/-- The constant `slack.MarkdownType`. -/
def MarkdownType : String := "mrkdwn"

/-- The method `slackBroadcaster.newMessage`: the text object of the one section block of
the message. -/
def slackBroadcaster.newMessage (b : slackBroadcaster) (ips : List String) : TextBlockObject :=
  let msg := fmtSprintf "IPs for %s " [b.dnsName]
  let msg :=
    if ips.length = 0 then msg ++ "were deleted"
    else
      let ipsText := stringsJoin ips "\t"
      msg ++ fmtSprintf "changed:\n_%s_" [ipsText]
  { Typ := MarkdownType, Text := msg, Emoji := false, Verbatim := false }

/-! ## Fixtures of `notifier_test.go` -/

/-- The test node `healthyNode1`. -/
def healthyNode1 : Node :=
  ⟨⟨[⟨NodeReady, ConditionTrue⟩], [⟨NodeExternalIP, "1.2.3.4"⟩]⟩⟩

/-- The test node `healthyNode2`. -/
def healthyNode2 : Node :=
  ⟨⟨[⟨NodeReady, ConditionTrue⟩], [⟨NodeExternalIP, "1.2.3.5"⟩]⟩⟩

/-- The test node `unhealthyMultiConditionsNode`. -/
def unhealthyMultiConditionsNode : Node :=
  ⟨⟨[⟨NodeReady, ConditionFalse⟩, ⟨NodeMemoryPressure, ConditionTrue⟩],
    [⟨NodeExternalIP, "1.2.3.9"⟩]⟩⟩

/-- The test node `healthyInternalAddressesNode`. -/
def healthyInternalAddressesNode : Node :=
  ⟨⟨[⟨NodeReady, ConditionTrue⟩],
    [⟨NodeExternalIP, "1.2.3.10"⟩, ⟨NodeInternalIP, "1.2.3.11"⟩]⟩⟩

/-- A label package whose selectors are the selector strings themselves. -/
def plainLabels : labels String :=
  { NewSelector := "", Parse := fun sel => .ok sel }

/-- A lister whose cache holds `nodes`, whatever the selector. -/
def cacheOf (nodes : List Node) : nodeLister String :=
  { lister := fun _ => .ok nodes }

/-- A publisher that always fails with the message `msg`. -/
def failing (msg : String) : Broadcaster := fun _ => some (.base msg)

/-- A publisher that always fails with the error `e`. -/
def failingWith (e : error) : Broadcaster := fun _ => some e

/-- A publisher that always succeeds. -/
def succeeding : Broadcaster := fun _ => none

/-- A remote record `a1` with the address `1.2.3.4`. -/
def recordA : DNSRecord := { ID := "a1", Typ := "A", Name := "example.com", Content := "1.2.3.4" }

/-- A second remote record, `b2`, with the same address `1.2.3.4`. -/
def recordB : DNSRecord := { ID := "b2", Typ := "A", Name := "example.com", Content := "1.2.3.4" }

/-- A remote record `c3` with the address `1.2.3.5`. -/
def recordC : DNSRecord := { ID := "c3", Typ := "A", Name := "example.com", Content := "1.2.3.5" }

/-- A DNS API with the zone `zone1` that holds `records` and on which every call succeeds
but the deletion of the records whose id is in `locked`. -/
def zoneOf (records : List DNSRecord) (locked : List String) : cloudflareAPI :=
  { ZoneIDByName := fun _ => .ok "zone1",
    DNSRecords := fun _ _ => .ok records,
    DeleteDNSRecord := fun _ recordID =>
      if recordID ∈ locked then some (.base "locked") else none,
    UpdateDNSRecord := fun _ _ _ => none,
    CreateDNSRecord := fun _ _ => none }

/-! ## Lemmas on `sort.Strings` -/

theorem le_iff_stringLE (a b : String) : a ≤ b ↔ stringLE a b := by
  rw [← not_lt, String.lt_iff_toList_lt]
  exact not_lt

theorem stringLE_total (a b : String) : stringLE a b ∨ stringLE b a := by
  rw [← le_iff_stringLE, ← le_iff_stringLE]
  exact le_total a b

theorem stringLE_trans (a b c : String) (hab : stringLE a b) (hbc : stringLE b c) :
    stringLE a c := by
  rw [← le_iff_stringLE] at hab hbc ⊢
  exact le_trans hab hbc

theorem stringLE_antisymm (a b : String) (hab : stringLE a b) (hba : stringLE b a) : a = b := by
  rw [← le_iff_stringLE] at hab hba
  exact le_antisymm hab hba

theorem sortStrings_perm (ips : List String) : (sortStrings ips).Perm ips :=
  List.perm_insertionSort stringLE ips

theorem sortStrings_sorted (ips : List String) : List.Sorted stringLE (sortStrings ips) :=
  @List.sorted_insertionSort _ stringLE _ ⟨stringLE_total⟩ ⟨stringLE_trans⟩ ips

theorem sortStrings_sorted_le (ips : List String) :
    List.Sorted (fun a b : String => a ≤ b) (sortStrings ips) :=
  List.Pairwise.imp (fun {a b} h => (le_iff_stringLE a b).mpr h) (sortStrings_sorted ips)

/-- Any increasing arrangement of `ips` is the list `sortStrings ips`: the outcome of
`sort.Strings` does not depend on the algorithm. -/
theorem sortStrings_unique (ips sorted : List String) (hperm : sorted.Perm ips)
    (hsorted : List.Sorted stringLE sorted) : sorted = sortStrings ips :=
  @List.eq_of_perm_of_sorted _ stringLE ⟨stringLE_antisymm⟩ _ _
    (hperm.trans (sortStrings_perm ips).symm) hsorted (sortStrings_sorted ips)

/-! ## Lemmas on `node` and `nodeLister` -/

theorem node.Available.loop_iff (conditions : List NodeCondition) :
    node.Available.loop conditions = true ↔
      ∃ c ∈ conditions, c.Typ = NodeReady ∧ c.Status = ConditionTrue := by
  induction conditions with
  | nil => simp [node.Available.loop]
  | cons c rest ih =>
    by_cases h : c.Typ = NodeReady ∧ c.Status = ConditionTrue
    · simp [node.Available.loop, h]
    · have h' : ¬ (c.Typ = NodeReady ∧ c.Status = ConditionTrue) := h
      simp only [node.Available.loop, if_neg h, ih, List.mem_cons, exists_eq_or_imp]
      tauto

theorem node.Available_iff (n : ip8s.node) :
    n.Available = true ↔
      ∃ c ∈ n.node.Status.Conditions, c.Typ = NodeReady ∧ c.Status = ConditionTrue :=
  node.Available.loop_iff _

theorem node.IPs.loop_eq (ips : List String) (addrs : List NodeAddress) :
    node.IPs.loop ips addrs =
      ips ++ (addrs.filter (fun addr => decide (addr.Typ = NodeExternalIP))).map
        (fun addr => addr.Address) := by
  induction addrs generalizing ips with
  | nil => simp [node.IPs.loop]
  | cons addr rest ih =>
    by_cases h : addr.Typ = NodeExternalIP
    · simp [node.IPs.loop, h, ih]
    · simp [node.IPs.loop, h, ih]

theorem node.IPs_eq (n : ip8s.node) :
    n.IPs = (n.node.Status.Addresses.filter (fun addr => decide (addr.Typ = NodeExternalIP))).map
      (fun addr => addr.Address) := by
  simp [node.IPs, node.IPs.loop_eq]

theorem node.mem_IPs (n : ip8s.node) (a : String) :
    a ∈ n.IPs ↔ ∃ addr ∈ n.node.Status.Addresses, addr.Typ = NodeExternalIP ∧ addr.Address = a := by
  simp [node.IPs_eq, and_assoc]

/-- The addresses `nodeLister.List` collects before sorting: the concatenation of
`node.IPs` over the available nodes, in the order of the listing. -/
theorem listLoop_eq (ips : List String) (nodes : List Node) :
    nodeLister.List.loop ips nodes =
      ips ++ (nodes.filter (fun nod => node.Available ⟨nod⟩)).flatMap
        (fun nod => node.IPs ⟨nod⟩) := by
  induction nodes generalizing ips with
  | nil => simp [nodeLister.List.loop]
  | cons nod rest ih =>
    by_cases h : node.Available ⟨nod⟩ = true
    · simp [nodeLister.List.loop, h, ih]
    · simp [nodeLister.List.loop, h, ih]

theorem list_ok {σ : Type} (lab : labels σ) (l : nodeLister σ) (sel : String)
    (label : σ) (nodes : List Node)
    (hlabel : nodeLister.List.label lab sel = .ok label) (hnodes : l.lister label = .ok nodes) :
    nodeLister.List lab l sel = .ok (sortStrings (nodeLister.List.loop [] nodes)) := by
  simp [nodeLister.List, hlabel, hnodes]

theorem mem_listLoop (nodes : List Node) (a : String) :
    a ∈ nodeLister.List.loop [] nodes ↔
      ∃ nod ∈ nodes,
        (∃ c ∈ nod.Status.Conditions, c.Typ = NodeReady ∧ c.Status = ConditionTrue) ∧
        ∃ addr ∈ nod.Status.Addresses, addr.Typ = NodeExternalIP ∧ addr.Address = a := by
  rw [listLoop_eq]
  simp only [List.nil_append, List.mem_flatMap, List.mem_filter, node.mem_IPs,
    node.Available_iff]
  constructor
  · rintro ⟨nod, ⟨hmem, hready⟩, haddr⟩
    exact ⟨nod, hmem, hready, haddr⟩
  · rintro ⟨nod, hmem, hready, haddr⟩
    exact ⟨nod, ⟨hmem, hready⟩, haddr⟩

theorem listLoop_skip (n : ip8s.node) (hn : n.Available = false) (ips : List String)
    (before after : List Node) :
    nodeLister.List.loop ips (before ++ n.node :: after) =
      nodeLister.List.loop ips (before ++ after) := by
  have h : node.Available ⟨n.node⟩ = false := hn
  simp [listLoop_eq, List.filter_cons, h]

/-! ## The endpoint resolver (`nodeLister.List`) -/

/-- C1, as stated, fails: two eligible nodes that carry the external address `1.2.3.4`
make `nodeLister.List` return that address twice. -/
theorem list_keeps_duplicates :
    ∃ ips, nodeLister.List plainLabels (cacheOf [healthyNode1, healthyNode1]) "" = .ok ips ∧
      ¬ ips.Nodup :=
  ⟨["1.2.3.4", "1.2.3.4"], rfl, by decide⟩

/-- C1, amended: when the listing succeeds, `nodeLister.List` returns every address as
often as it occurs among the `ExternalIP` entries of the available nodes; its result is
free of duplicates exactly when those entries are pairwise distinct. -/
theorem list_nodup_iff {σ : Type} (lab : labels σ) (l : nodeLister σ) (sel : String)
    (label : σ) (nodes : List Node)
    (hlabel : nodeLister.List.label lab sel = .ok label) (hnodes : l.lister label = .ok nodes) :
    ∃ ips, nodeLister.List lab l sel = .ok ips ∧
      (ips.Nodup ↔
        ((nodes.filter (fun nod => node.Available ⟨nod⟩)).flatMap
          (fun nod => node.IPs ⟨nod⟩)).Nodup) ∧
      ∀ a : String, ips.count a =
        ((nodes.filter (fun nod => node.Available ⟨nod⟩)).flatMap
          (fun nod => node.IPs ⟨nod⟩)).count a := by
  refine ⟨_, list_ok lab l sel label nodes hlabel hnodes, ?_, ?_⟩
  · have h := (sortStrings_perm (nodeLister.List.loop [] nodes)).nodup_iff
    rw [h, listLoop_eq, List.nil_append]
  · intro a
    have h := (sortStrings_perm (nodeLister.List.loop [] nodes)).count_eq a
    rw [h, listLoop_eq, List.nil_append]

theorem list_nodup_iff_witness :
    nodeLister.List.label plainLabels "" = .ok "" ∧
    (cacheOf [healthyNode2, healthyNode1]).lister "" = .ok [healthyNode2, healthyNode1] ∧
    ∃ ips, nodeLister.List plainLabels (cacheOf [healthyNode2, healthyNode1]) "" = .ok ips ∧
      (ips.Nodup ↔
        (([healthyNode2, healthyNode1].filter (fun nod => node.Available ⟨nod⟩)).flatMap
          (fun nod => node.IPs ⟨nod⟩)).Nodup) ∧
      ∀ a : String, ips.count a =
        (([healthyNode2, healthyNode1].filter (fun nod => node.Available ⟨nod⟩)).flatMap
          (fun nod => node.IPs ⟨nod⟩)).count a :=
  ⟨rfl, rfl,
    list_nodup_iff plainLabels (cacheOf [healthyNode2, healthyNode1]) "" ""
      [healthyNode2, healthyNode1] rfl rfl⟩

/-- C2: when the listing succeeds, the list returned by `nodeLister.List` is sorted
ascending by string comparison, each element being `≤` its successor; a listing of the
nodes with addresses `1.2.3.5` and `1.2.3.4` gives `["1.2.3.4", "1.2.3.5"]`. -/
theorem list_sorted {σ : Type} (lab : labels σ) (l : nodeLister σ) (sel : String)
    (label : σ) (nodes : List Node)
    (hlabel : nodeLister.List.label lab sel = .ok label) (hnodes : l.lister label = .ok nodes) :
    (∃ ips, nodeLister.List lab l sel = .ok ips ∧
      List.Sorted (fun a b : String => a ≤ b) ips ∧
      List.Chain' (fun a b : String => a ≤ b) ips) ∧
    (nodes = [healthyNode2, healthyNode1] →
      nodeLister.List lab l sel = .ok ["1.2.3.4", "1.2.3.5"]) := by
  refine ⟨⟨_, list_ok lab l sel label nodes hlabel hnodes, sortStrings_sorted_le _,
    List.Pairwise.chain' (sortStrings_sorted_le _)⟩, ?_⟩
  intro hex
  rw [list_ok lab l sel label nodes hlabel hnodes, hex]
  rfl

theorem list_sorted_witness :
    nodeLister.List.label plainLabels "" = .ok "" ∧
    (cacheOf [healthyNode2, healthyNode1]).lister "" = .ok [healthyNode2, healthyNode1] ∧
    (∃ ips, nodeLister.List plainLabels (cacheOf [healthyNode2, healthyNode1]) "" = .ok ips ∧
      List.Sorted (fun a b : String => a ≤ b) ips ∧
      List.Chain' (fun a b : String => a ≤ b) ips) ∧
    (([healthyNode2, healthyNode1] : List Node) = [healthyNode2, healthyNode1] →
      nodeLister.List plainLabels (cacheOf [healthyNode2, healthyNode1]) "" =
        .ok ["1.2.3.4", "1.2.3.5"]) :=
  ⟨rfl, rfl,
    list_sorted plainLabels (cacheOf [healthyNode2, healthyNode1]) "" ""
      [healthyNode2, healthyNode1] rfl rfl⟩

/-- C3: when the listing succeeds, a string `a` occurs in the result of `nodeLister.List`
if and only if some listed node has a condition of type `Ready` with status `True` and
an address of kind `ExternalIP` whose value is `a`. -/
theorem list_mem_iff {σ : Type} (lab : labels σ) (l : nodeLister σ) (sel : String)
    (label : σ) (nodes : List Node)
    (hlabel : nodeLister.List.label lab sel = .ok label) (hnodes : l.lister label = .ok nodes) :
    ∃ ips, nodeLister.List lab l sel = .ok ips ∧
      ∀ a : String, a ∈ ips ↔
        ∃ nod ∈ nodes,
          (∃ c ∈ nod.Status.Conditions, c.Typ = NodeReady ∧ c.Status = ConditionTrue) ∧
          ∃ addr ∈ nod.Status.Addresses, addr.Typ = NodeExternalIP ∧ addr.Address = a := by
  refine ⟨_, list_ok lab l sel label nodes hlabel hnodes, fun a => ?_⟩
  rw [(sortStrings_perm _).mem_iff]
  exact mem_listLoop nodes a

theorem list_mem_iff_witness :
    nodeLister.List.label plainLabels "" = .ok "" ∧
    (cacheOf [unhealthyMultiConditionsNode, healthyInternalAddressesNode]).lister "" =
      .ok [unhealthyMultiConditionsNode, healthyInternalAddressesNode] ∧
    ∃ ips, nodeLister.List plainLabels
        (cacheOf [unhealthyMultiConditionsNode, healthyInternalAddressesNode]) "" = .ok ips ∧
      ∀ a : String, a ∈ ips ↔
        ∃ nod ∈ [unhealthyMultiConditionsNode, healthyInternalAddressesNode],
          (∃ c ∈ nod.Status.Conditions, c.Typ = NodeReady ∧ c.Status = ConditionTrue) ∧
          ∃ addr ∈ nod.Status.Addresses, addr.Typ = NodeExternalIP ∧ addr.Address = a :=
  ⟨rfl, rfl,
    list_mem_iff plainLabels
      (cacheOf [unhealthyMultiConditionsNode, healthyInternalAddressesNode]) "" ""
      [unhealthyMultiConditionsNode, healthyInternalAddressesNode] rfl rfl⟩

/-- C7: `node.Available` is true exactly when some condition has type `Ready` and status
`True`; a condition of another type never changes the result; and a node none of whose
`Ready` conditions has status `True` is not available and adds nothing to the result of
`nodeLister.List`, whatever its addresses. -/
theorem available_iff_ready (n : ip8s.node) :
    (n.Available = true ↔
      ∃ c ∈ n.node.Status.Conditions, c.Typ = NodeReady ∧ c.Status = ConditionTrue) ∧
    (∀ (c : NodeCondition) (before after : List NodeCondition) (addrs : List NodeAddress),
      c.Typ ≠ NodeReady →
        node.Available ⟨⟨⟨before ++ c :: after, addrs⟩⟩⟩ =
          node.Available ⟨⟨⟨before ++ after, addrs⟩⟩⟩) ∧
    ((∀ c ∈ n.node.Status.Conditions, c.Typ = NodeReady → c.Status ≠ ConditionTrue) →
      n.Available = false ∧
      ∀ {σ : Type} (lab : labels σ) (l l' : nodeLister σ) (sel : String) (label : σ)
        (before after : List Node),
        nodeLister.List.label lab sel = .ok label →
        l.lister label = .ok (before ++ n.node :: after) →
        l'.lister label = .ok (before ++ after) →
        nodeLister.List lab l sel = nodeLister.List lab l' sel) := by
  refine ⟨node.Available_iff n, ?_, ?_⟩
  · intro c before after addrs hc
    rw [Bool.eq_iff_iff, node.Available_iff, node.Available_iff]
    simp only [List.mem_append, List.mem_cons]
    constructor
    · rintro ⟨x, hx | hx | hx, hr⟩
      · exact ⟨x, Or.inl hx, hr⟩
      · exact absurd (hx ▸ hr.1) hc
      · exact ⟨x, Or.inr hx, hr⟩
    · rintro ⟨x, hx | hx, hr⟩
      · exact ⟨x, Or.inl hx, hr⟩
      · exact ⟨x, Or.inr (Or.inr hx), hr⟩
  · intro hready
    have hn : n.Available = false := by
      rw [← Bool.not_eq_true, node.Available_iff]
      rintro ⟨c, hc, ht, hs⟩
      exact hready c hc ht hs
    refine ⟨hn, ?_⟩
    intro σ lab l l' sel label before after hlabel hl hl'
    rw [list_ok lab l sel label _ hlabel hl, list_ok lab l' sel label _ hlabel hl',
      listLoop_skip n hn]

theorem available_iff_ready_witness :
    node.Available ⟨unhealthyMultiConditionsNode⟩ = false ∧
    nodeLister.List plainLabels (cacheOf ([healthyNode1] ++ unhealthyMultiConditionsNode :: [])) "" =
      nodeLister.List plainLabels (cacheOf ([healthyNode1] ++ [])) "" :=
  have h := (available_iff_ready ⟨unhealthyMultiConditionsNode⟩).2.2 (by decide)
  ⟨h.1, h.2 plainLabels _ _ "" "" [healthyNode1] [] rfl rfl rfl⟩

/-! ## The change notifier (`diff`, `sendIPs`) -/

theorem diff.loop_false_iff (one two : List String) (hlen : one.length = two.length) :
    diff.loop one two = false ↔ one = two := by
  induction one generalizing two with
  | nil =>
    cases two with
    | nil => simp [diff.loop]
    | cons b two => simp at hlen
  | cons a one ih =>
    cases two with
    | nil => simp at hlen
    | cons b two =>
      have hlen' : one.length = two.length := by simpa using hlen
      by_cases hab : a = b
      · simp [diff.loop, hab, ih two hlen']
      · simp [diff.loop, hab]

theorem diff_false_iff (one two : List String) : diff one two = false ↔ one = two := by
  by_cases hlen : one.length = two.length
  · simp [diff, hlen, diff.loop_false_iff one two hlen]
  · have hne : one ≠ two := fun h => hlen (by rw [h])
    simp [diff, hlen, hne]

theorem diff_true_iff (one two : List String) : diff one two = true ↔ one ≠ two := by
  rw [← Bool.not_eq_false, diff_false_iff]

/-- C6: `diff(one, two)` is false if and only if the two lists have the same length and
the same element at every index, that is, if and only if they are equal; `diff(a, a)`
is false. -/
theorem diff_false_iff_identical (one two : List String) :
    (diff one two = false ↔
      one.length = two.length ∧
        ∀ (i : Nat) (h1 : i < one.length) (h2 : i < two.length), one[i] = two[i]) ∧
    (diff one two = false ↔ one = two) ∧
    diff one one = false := by
  refine ⟨?_, diff_false_iff one two, (diff_false_iff one one).mpr rfl⟩
  rw [diff_false_iff]
  constructor
  · intro h
    subst h
    exact ⟨rfl, fun _ _ _ => rfl⟩
  · rintro ⟨hlen, hget⟩
    exact List.ext_getElem hlen hget

theorem sendIPs_ok {σ : Type} (lab : labels σ) (n : notifier σ) (c : Chan) (ips : List String)
    (hlist : n.lister.List lab n.selector = .ok ips) :
    notifier.sendIPs lab n c =
      if n.subsequent = false ∨ ips ≠ n.lastIPs then
        ({ n with lastIPs := ips, subsequent := true }, c ++ [ips])
      else ({ n with subsequent := true }, c) := by
  by_cases hs : n.subsequent = false
  · simp [notifier.sendIPs, hlist, hs]
  · have hs' : n.subsequent = true := by simpa using hs
    by_cases hd : n.lastIPs = ips
    · have hd' : diff n.lastIPs ips = false := (diff_false_iff _ _).mpr hd
      have hif : ¬ (n.subsequent = false ∨ ips ≠ n.lastIPs) := by simp [hs', hd]
      rw [if_neg hif]
      simp [notifier.sendIPs, hlist, hs', hd']
    · have hd' : diff n.lastIPs ips = true := (diff_true_iff _ _).mpr hd
      have hne : ¬ ips = n.lastIPs := fun h => hd h.symm
      simp [notifier.sendIPs, hlist, hs', hd', hne]

/-- C4: when the resolution succeeds with `ips`, `sendIPs` puts `ips` on the output
channel if and only if the session has not emitted before (`subsequent` is false) or
`ips` differs from the last emitted list, and otherwise leaves the channel as it was; a
fresh session emits its first successful resolution, whatever it is. -/
theorem sendIPs_emits_iff {σ : Type} (lab : labels σ) (n : notifier σ) (c : Chan)
    (ips : List String) (hlist : n.lister.List lab n.selector = .ok ips) :
    ((notifier.sendIPs lab n c).2 = c ++ [ips] ↔ (n.subsequent = false ∨ ips ≠ n.lastIPs)) ∧
    ((notifier.sendIPs lab n c).2 = c ↔ ¬ (n.subsequent = false ∨ ips ≠ n.lastIPs)) ∧
    (notifier.sendIPs lab (newNotifierFromClient n.lister n.selector) c).2 = c ++ [ips] := by
  refine ⟨?_, ?_, ?_⟩
  · rw [sendIPs_ok lab n c ips hlist]
    by_cases h : n.subsequent = false ∨ ips ≠ n.lastIPs
    · simp [h]
    · simp [h]
  · rw [sendIPs_ok lab n c ips hlist]
    by_cases h : n.subsequent = false ∨ ips ≠ n.lastIPs
    · simp [h]
    · simp [h]
  · rw [sendIPs_ok lab (newNotifierFromClient n.lister n.selector) c ips hlist]
    simp [newNotifierFromClient]

theorem sendIPs_emits_iff_witness :
    (newNotifierFromClient (cacheOf []) "").lister.List plainLabels
        (newNotifierFromClient (cacheOf []) "").selector = .ok [] ∧
    ((notifier.sendIPs plainLabels (newNotifierFromClient (cacheOf []) "") []).2 = [] ++ [[]] ↔
      ((newNotifierFromClient (cacheOf []) "").subsequent = false ∨
        [] ≠ (newNotifierFromClient (cacheOf []) "").lastIPs)) :=
  ⟨rfl, (sendIPs_emits_iff plainLabels (newNotifierFromClient (cacheOf []) "") [] [] rfl).1⟩

theorem emittedAfter_nil (last : List String) : emittedAfter last [] = [] := by
  simp [emittedAfter]

theorem emittedAfter_cons (last r : List String) (rs : List (List String)) :
    emittedAfter last (r :: rs) =
      if r ≠ last then r :: emittedAfter r rs else emittedAfter r rs := by
  by_cases h : r = last
  · simp [emittedAfter, List.filter_cons, h]
  · simp [emittedAfter, List.filter_cons, h]

theorem emittedAfter_chain (last : List String) (rs : List (List String)) :
    List.Chain (fun a b : List String => a ≠ b) last (emittedAfter last rs) := by
  induction rs generalizing last with
  | nil => simp [emittedAfter_nil]
  | cons r rs ih =>
    rw [emittedAfter_cons]
    by_cases h : r = last
    · rw [if_neg (not_not.mpr h), h]
      exact ih last
    · rw [if_pos h]
      exact List.Chain.cons (fun e => h e.symm) (ih r)

theorem emittedAfter_sublist (last : List String) (rs : List (List String)) :
    (emittedAfter last rs).Sublist rs := by
  induction rs generalizing last with
  | nil => simp [emittedAfter_nil]
  | cons r rs ih =>
    rw [emittedAfter_cons]
    by_cases h : r = last
    · rw [if_neg (not_not.mpr h)]
      exact List.Sublist.cons r (ih r)
    · rw [if_pos h]
      exact List.Sublist.cons₂ r (ih r)

theorem emittedAfter_constant (r : List String) (rs : List (List String))
    (hconst : ∀ x ∈ rs, x = r) : emittedAfter r rs = [] := by
  induction rs with
  | nil => simp [emittedAfter_nil]
  | cons x rs ih =>
    have hx : x = r := hconst x (List.mem_cons_self x rs)
    rw [emittedAfter_cons, if_neg (not_not.mpr hx), hx]
    exact ih (fun y hy => hconst y (List.mem_cons_of_mem x hy))

theorem sendAll_subsequent {σ : Type} (lab : labels σ) (sel : String)
    (ls : List (nodeLister σ)) (rs : List (List String))
    (hres : List.Forall₂ (fun l r => nodeLister.List lab l sel = .ok r) ls rs)
    (n : notifier σ) (c : Chan) (hsel : n.selector = sel) (hs : n.subsequent = true) :
    (notifier.sendAll lab n c ls).2 = c ++ emittedAfter n.lastIPs rs := by
  induction hres generalizing n c with
  | nil => simp [notifier.sendAll, emittedAfter_nil]
  | @cons l r ls rs hl _ ih =>
    have hlist : ({ n with lister := l } : notifier σ).lister.List lab
        ({ n with lister := l } : notifier σ).selector = .ok r := by
      simpa [hsel] using hl
    rw [notifier.sendAll, sendIPs_ok lab _ c r hlist, emittedAfter_cons]
    by_cases h : r = n.lastIPs
    · have hif : ¬ (n.subsequent = false ∨ r ≠ n.lastIPs) := by simp [hs, h]
      simp only [if_neg hif, if_neg (not_not.mpr h)]
      rw [ih { lister := l, selector := n.selector, subsequent := true, lastIPs := n.lastIPs }
        c hsel rfl]
      simp [h]
    · have hif : n.subsequent = false ∨ r ≠ n.lastIPs := Or.inr h
      simp only [if_pos hif, if_pos h]
      rw [ih { lister := l, selector := n.selector, subsequent := true, lastIPs := r }
        (c ++ [r]) hsel rfl]
      simp

theorem sendAll_fresh {σ : Type} (lab : labels σ) (sel : String) (l₀ : nodeLister σ)
    (ls : List (nodeLister σ)) (rs : List (List String))
    (hres : List.Forall₂ (fun l r => nodeLister.List lab l sel = .ok r) ls rs) :
    (notifier.sendAll lab (newNotifierFromClient l₀ sel) [] ls).2 = emissionRule rs := by
  cases hres with
  | nil => simp [notifier.sendAll, emissionRule]
  | @cons l r ls rs hl hrest =>
    have hlist : ({ newNotifierFromClient l₀ sel with lister := l } : notifier σ).lister.List lab
        ({ newNotifierFromClient l₀ sel with lister := l } : notifier σ).selector = .ok r := by
      simpa [newNotifierFromClient] using hl
    rw [notifier.sendAll, sendIPs_ok lab _ [] r hlist]
    have hif : (newNotifierFromClient l₀ sel).subsequent = false ∨
        r ≠ (newNotifierFromClient l₀ sel).lastIPs := Or.inl rfl
    simp only [if_pos hif]
    rw [sendAll_subsequent lab sel ls rs hrest _ _ rfl rfl]
    simp [emissionRule]

/-- C5: fed the successful resolutions `r1..rn` from a fresh session, `sendIPs` emits
`r1` and then every `ri` that differs from `r(i-1)`, in order; no two consecutive
emissions are equal; resolutions that never change give one emission; and
`[]`, `[1.2.3.4]`, `[]` gives these three emissions in that order. -/
theorem sendIPs_emissions {σ : Type} (lab : labels σ) (sel : String) (l₀ : nodeLister σ)
    (ls : List (nodeLister σ)) (rs : List (List String))
    (hres : List.Forall₂ (fun l r => nodeLister.List lab l sel = .ok r) ls rs) :
    (notifier.sendAll lab (newNotifierFromClient l₀ sel) [] ls).2 = emissionRule rs ∧
    List.Chain' (fun a b : List String => a ≠ b) (emissionRule rs) ∧
    (emissionRule rs).Sublist rs ∧
    (emissionRule rs).head? = rs.head? ∧
    (∀ r : List String, rs ≠ [] → (∀ x ∈ rs, x = r) →
      (notifier.sendAll lab (newNotifierFromClient l₀ sel) [] ls).2 = [r]) ∧
    (rs = [[], ["1.2.3.4"], []] →
      (notifier.sendAll lab (newNotifierFromClient l₀ sel) [] ls).2 =
        [[], ["1.2.3.4"], []]) := by
  have hrun := sendAll_fresh lab sel l₀ ls rs hres
  refine ⟨hrun, ?_, ?_, ?_, ?_, ?_⟩
  · cases rs with
    | nil => simp [emissionRule]
    | cons r rs => exact emittedAfter_chain r rs
  · cases rs with
    | nil => simp [emissionRule]
    | cons r rs => exact List.Sublist.cons₂ r (emittedAfter_sublist r rs)
  · cases rs with
    | nil => simp [emissionRule]
    | cons r rs => simp [emissionRule]
  · intro r hne hconst
    rw [hrun]
    cases rs with
    | nil => exact absurd rfl hne
    | cons x rs =>
      have hx : x = r := hconst x (List.mem_cons_self x rs)
      rw [emissionRule, hx,
        emittedAfter_constant r rs (fun y hy => hconst y (List.mem_cons_of_mem x hy))]
  · intro hex
    rw [hrun, hex]
    decide

theorem sendIPs_emissions_witness :
    List.Forall₂ (fun l r => nodeLister.List plainLabels l "" = .ok r)
      [cacheOf [], cacheOf [healthyNode1], cacheOf [healthyNode1], cacheOf []]
      [[], ["1.2.3.4"], ["1.2.3.4"], []] ∧
    (notifier.sendAll plainLabels (newNotifierFromClient (cacheOf []) "") []
        [cacheOf [], cacheOf [healthyNode1], cacheOf [healthyNode1], cacheOf []]).2 =
      emissionRule [[], ["1.2.3.4"], ["1.2.3.4"], []] :=
  have hres : List.Forall₂ (fun l r => nodeLister.List plainLabels l "" = .ok r)
      [cacheOf [], cacheOf [healthyNode1], cacheOf [healthyNode1], cacheOf []]
      [[], ["1.2.3.4"], ["1.2.3.4"], []] :=
    .cons rfl (.cons rfl (.cons rfl (.cons rfl .nil)))
  ⟨hres, (sendIPs_emissions plainLabels "" (cacheOf []) _ _ hres).1⟩

/-! ## The broadcast fan-out (`multiBroadcaster.Broadcast`) -/

theorem error.msgs_eq_map (errs : List error) : error.msgs errs = errs.map error.Error := by
  induction errs with
  | nil => simp [error.msgs]
  | cons e rest ih => simp [error.msgs, ih]

theorem task_errs (b : multiBroadcaster) (ips : List String) (s : multiBroadcaster.fanout)
    (i : Nat) :
    (multiBroadcaster.task b ips s i).errs =
      s.errs ++ (multiBroadcaster.failureAt b ips i).toList := by
  unfold multiBroadcaster.task multiBroadcaster.failureAt
  rcases hb : b[i]? with _ | _ | p
  · simp
  · simp
  · rcases hp : p ips with _ | err <;> simp [hp]

theorem task_invoked (b : multiBroadcaster) (ips : List String) (s : multiBroadcaster.fanout)
    (i : Nat) :
    (multiBroadcaster.task b ips s i).invoked =
      s.invoked ++ (if multiBroadcaster.hasPublisher b i then [i] else []) := by
  unfold multiBroadcaster.task multiBroadcaster.hasPublisher
  rcases hb : b[i]? with _ | _ | p
  · simp
  · simp
  · rcases hp : p ips with _ | err <;> simp [hp]

theorem foldl_task_errs (b : multiBroadcaster) (ips : List String) (order : List Nat)
    (s : multiBroadcaster.fanout) :
    (order.foldl (multiBroadcaster.task b ips) s).errs =
      s.errs ++ order.filterMap (multiBroadcaster.failureAt b ips) := by
  induction order generalizing s with
  | nil => simp
  | cons i rest ih =>
    rw [List.foldl_cons, ih, task_errs, List.filterMap_cons]
    rcases multiBroadcaster.failureAt b ips i with _ | err <;> simp

theorem foldl_task_invoked (b : multiBroadcaster) (ips : List String) (order : List Nat)
    (s : multiBroadcaster.fanout) :
    (order.foldl (multiBroadcaster.task b ips) s).invoked =
      s.invoked ++ order.filter (multiBroadcaster.hasPublisher b) := by
  induction order generalizing s with
  | nil => simp
  | cons i rest ih =>
    rw [List.foldl_cons, ih, task_invoked, List.filter_cons]
    by_cases h : multiBroadcaster.hasPublisher b i = true <;> simp [h]

theorem tasks_errs (b : multiBroadcaster) (ips : List String) (order : List Nat) :
    (multiBroadcaster.tasks b ips order).errs =
      order.filterMap (multiBroadcaster.failureAt b ips) := by
  simp [multiBroadcaster.tasks, foldl_task_errs]

theorem tasks_invoked (b : multiBroadcaster) (ips : List String) (order : List Nat) :
    (multiBroadcaster.tasks b ips order).invoked =
      order.filter (multiBroadcaster.hasPublisher b) := by
  simp [multiBroadcaster.tasks, foldl_task_invoked]

/-- Run in the order of registration, the tasks record the failures in that order. -/
theorem filterMap_failureAt_range (b : multiBroadcaster) (ips : List String) :
    (List.range b.length).filterMap (multiBroadcaster.failureAt b ips) =
      multiBroadcaster.failures b ips := by
  induction b using List.reverseRecOn with
  | nil => simp [multiBroadcaster.failures]
  | append_singleton b slot ih =>
    have hleft : (List.range b.length).filterMap (multiBroadcaster.failureAt (b ++ [slot]) ips) =
        (List.range b.length).filterMap (multiBroadcaster.failureAt b ips) := by
      apply List.filterMap_congr
      intro i hi
      have hlt : i < b.length := List.mem_range.mp hi
      simp [multiBroadcaster.failureAt, List.getElem?_append_left hlt]
    have hlast : multiBroadcaster.failureAt (b ++ [slot]) ips b.length =
        slot.bind (fun p => p ips) := by
      unfold multiBroadcaster.failureAt
      rcases slot with _ | p <;> simp
    rw [List.length_append, List.length_singleton, List.range_succ, List.filterMap_append,
      hleft, ih]
    simp only [multiBroadcaster.failures, List.filterMap_append, List.filterMap_cons,
      List.filterMap_nil, hlast]

theorem tasks_errs_perm (b : multiBroadcaster) (ips : List String) (order : List Nat)
    (horder : order.Perm (List.range b.length)) :
    ((multiBroadcaster.tasks b ips order).errs).Perm (multiBroadcaster.failures b ips) := by
  rw [tasks_errs, ← filterMap_failureAt_range]
  exact horder.filterMap _

theorem mem_failures (b : multiBroadcaster) (ips : List String) (err : error) :
    err ∈ multiBroadcaster.failures b ips ↔ ∃ p, some p ∈ b ∧ p ips = some err := by
  simp only [multiBroadcaster.failures, List.mem_filterMap]
  constructor
  · rintro ⟨slot, hslot, hbind⟩
    rcases slot with _ | p
    · simp at hbind
    · exact ⟨p, hslot, by simpa using hbind⟩
  · rintro ⟨p, hp, herr⟩
    exact ⟨some p, hp, by simpa using herr⟩

theorem failures_eq_nil_iff (b : multiBroadcaster) (ips : List String) :
    multiBroadcaster.failures b ips = [] ↔ ∀ p : Broadcaster, some p ∈ b → p ips = none := by
  rw [List.eq_nil_iff_forall_not_mem]
  constructor
  · intro h p hp
    rcases hres : p ips with _ | err
    · rfl
    · exact absurd ((mem_failures b ips err).mpr ⟨p, hp, hres⟩) (h err)
  · intro h err herr
    obtain ⟨p, hp, hres⟩ := (mem_failures b ips err).mp herr
    rw [h p hp] at hres
    exact Option.noConfusion hres

theorem broadcast_of_nil (b : multiBroadcaster) (ips : List String) (order : List Nat)
    (herrs : (multiBroadcaster.tasks b ips order).errs = []) :
    multiBroadcaster.Broadcast b ips order = none := by
  simp [multiBroadcaster.Broadcast, herrs]

theorem broadcast_of_one (b : multiBroadcaster) (ips : List String) (order : List Nat)
    (e : error) (herrs : (multiBroadcaster.tasks b ips order).errs = [e]) :
    multiBroadcaster.Broadcast b ips order =
      errors.Wrap (some e) "one broadcast failed" := by
  simp [multiBroadcaster.Broadcast, herrs]

theorem broadcast_of_many (b : multiBroadcaster) (ips : List String) (order : List Nat)
    (herrs : 2 ≤ (multiBroadcaster.tasks b ips order).errs.length) :
    multiBroadcaster.Broadcast b ips order =
      errors.Wrap (some (.multiError (multiBroadcaster.tasks b ips order).errs))
        "multiple error occured during broadcasting" := by
  have h0 : ¬ (multiBroadcaster.tasks b ips order).errs.length = 0 := by omega
  have h1 : ¬ (multiBroadcaster.tasks b ips order).errs.length = 1 := by omega
  simp only [multiBroadcaster.Broadcast, if_neg h0, if_neg h1]

theorem broadcast_eq_none_iff (b : multiBroadcaster) (ips : List String) (order : List Nat) :
    multiBroadcaster.Broadcast b ips order = none ↔
      (multiBroadcaster.tasks b ips order).errs = [] := by
  constructor
  · intro h
    rcases herrs : (multiBroadcaster.tasks b ips order).errs with _ | ⟨e, _ | ⟨e', rest⟩⟩
    · rfl
    · rw [broadcast_of_one b ips order e herrs] at h
      simp [errors.Wrap] at h
    · rw [broadcast_of_many b ips order (by simp [herrs])] at h
      simp [errors.Wrap] at h
  · exact broadcast_of_nil b ips order

/-- C8: for every completion order of the publisher tasks, `multiBroadcaster.Broadcast`
returns `nil` if and only if no publisher of the list returns an error; every non-nil
publisher is invoked exactly once whatever the others return, and a list that is empty
or holds only `nil` slots gives `nil`. -/
theorem broadcast_nil_iff (b : multiBroadcaster) (ips : List String) (order : List Nat)
    (horder : order.Perm (List.range b.length)) :
    (multiBroadcaster.Broadcast b ips order = none ↔
      ∀ p : Broadcaster, some p ∈ b → p ips = none) ∧
    (∀ (i : Nat) (p : Broadcaster), b[i]? = some (some p) →
      (multiBroadcaster.tasks b ips order).invoked.count i = 1) ∧
    (∀ i ∈ (multiBroadcaster.tasks b ips order).invoked, ∃ p : Broadcaster,
      b[i]? = some (some p)) ∧
    ((∀ slot ∈ b, slot = none) → multiBroadcaster.Broadcast b ips order = none) := by
  have hiff : multiBroadcaster.Broadcast b ips order = none ↔
      ∀ p : Broadcaster, some p ∈ b → p ips = none := by
    rw [broadcast_eq_none_iff, ← failures_eq_nil_iff]
    constructor
    · intro h
      have hperm := tasks_errs_perm b ips order horder
      rw [h] at hperm
      exact List.Perm.nil_eq hperm |>.symm
    · intro h
      have hperm := tasks_errs_perm b ips order horder
      rw [h] at hperm
      exact List.Perm.eq_nil hperm
  refine ⟨hiff, ?_, ?_, ?_⟩
  · intro i p hi
    have hlt : i < b.length := by
      rcases Nat.lt_or_ge i b.length with h | h
      · exact h
      · rw [List.getElem?_eq_none h] at hi
        exact Option.noConfusion hi
    have hpub : multiBroadcaster.hasPublisher b i = true := by
      simp [multiBroadcaster.hasPublisher, hi]
    rw [tasks_invoked, List.count_filter hpub, horder.count_eq]
    exact List.count_eq_one_of_mem (List.nodup_range b.length) (List.mem_range.mpr hlt)
  · intro i hi
    rw [tasks_invoked, List.mem_filter] at hi
    have hpub := hi.2
    unfold multiBroadcaster.hasPublisher at hpub
    rcases hb : b[i]? with _ | _ | p
    · simp [hb] at hpub
    · simp [hb] at hpub
    · exact ⟨p, rfl⟩
  · intro hnil
    apply hiff.mpr
    intro p hp
    exact Option.noConfusion (hnil (some p) hp)

theorem broadcast_nil_iff_witness :
    ([2, 0, 1] : List Nat).Perm (List.range [some succeeding, none, some (failing "a")].length) ∧
    (multiBroadcaster.Broadcast [some succeeding, none, some (failing "a")] [] [2, 0, 1] = none ↔
      ∀ p : Broadcaster, some p ∈ [some succeeding, none, some (failing "a")] → p [] = none) :=
  ⟨by decide,
    (broadcast_nil_iff [some succeeding, none, some (failing "a")] [] [2, 0, 1] (by decide)).1⟩

/-- C9, as stated, fails: when the second of two failing publishers completes first, the
aggregate message lists its failure first, not in the order of registration. -/
theorem broadcast_completion_order :
    ([1, 0] : List Nat).Perm (List.range [some (failing "a"), some (failing "b")].length) ∧
    (multiBroadcaster.Broadcast [some (failing "a"), some (failing "b")] [] [1, 0]).map
        error.Error =
      some "multiple error occured during broadcasting: b\n-----------------------\na" ∧
    (multiBroadcaster.Broadcast [some (failing "a"), some (failing "b")] [] [1, 0]).map
        error.Error ≠
      some ("multiple error occured during broadcasting: " ++
        stringsJoin ["a", "b"] multiErrorSep) := by
  refine ⟨by decide, by decide, by decide⟩

/-- C9, amended: when at least two publishers fail, `multiBroadcaster.Broadcast` returns
the `multiError` of the failures wrapped with "multiple error occured during
broadcasting"; its message joins, with the delimiter, the message of each failure exactly
once, in the order in which the publisher tasks completed, which is the order of
registration when the tasks complete in that order. -/
theorem broadcast_aggregate (b : multiBroadcaster) (ips : List String) (order : List Nat)
    (horder : order.Perm (List.range b.length))
    (hfail : 2 ≤ (multiBroadcaster.failures b ips).length) :
    ∃ errs : List error,
      multiBroadcaster.Broadcast b ips order =
        errors.Wrap (some (.multiError errs)) "multiple error occured during broadcasting" ∧
      errs = order.filterMap (multiBroadcaster.failureAt b ips) ∧
      errs.Perm (multiBroadcaster.failures b ips) ∧
      (multiBroadcaster.Broadcast b ips order).map error.Error =
        some ("multiple error occured during broadcasting: " ++
          stringsJoin (errs.map error.Error) multiErrorSep) ∧
      (order = List.range b.length → errs = multiBroadcaster.failures b ips) := by
  have hperm := tasks_errs_perm b ips order horder
  have hlen : 2 ≤ (multiBroadcaster.tasks b ips order).errs.length := by
    rw [hperm.length_eq]
    exact hfail
  have hres := broadcast_of_many b ips order hlen
  refine ⟨(multiBroadcaster.tasks b ips order).errs, hres, tasks_errs b ips order, hperm, ?_, ?_⟩
  · rw [hres]
    have hjoin : "multiple error occured during broadcasting" ++ ": " =
        "multiple error occured during broadcasting: " := by decide
    simp only [errors.Wrap, Option.map_some', error.Error, error.msgs_eq_map, hjoin]
  · intro hreg
    rw [tasks_errs, hreg, filterMap_failureAt_range]

theorem broadcast_aggregate_witness :
    ([1, 2, 0] : List Nat).Perm
      (List.range [some (failing "a"), some succeeding, some (failing "b")].length) ∧
    2 ≤ (multiBroadcaster.failures
      [some (failing "a"), some succeeding, some (failing "b")] []).length ∧
    ∃ errs : List error,
      multiBroadcaster.Broadcast [some (failing "a"), some succeeding, some (failing "b")] []
          [1, 2, 0] =
        errors.Wrap (some (.multiError errs)) "multiple error occured during broadcasting" ∧
      errs = [1, 2, 0].filterMap (multiBroadcaster.failureAt
        [some (failing "a"), some succeeding, some (failing "b")] []) ∧
      errs.Perm (multiBroadcaster.failures
        [some (failing "a"), some succeeding, some (failing "b")] []) ∧
      (multiBroadcaster.Broadcast [some (failing "a"), some succeeding, some (failing "b")] []
          [1, 2, 0]).map error.Error =
        some ("multiple error occured during broadcasting: " ++
          stringsJoin (errs.map error.Error) multiErrorSep) ∧
      ([1, 2, 0] = List.range [some (failing "a"), some succeeding, some (failing "b")].length →
        errs = multiBroadcaster.failures
          [some (failing "a"), some succeeding, some (failing "b")] []) :=
  ⟨by decide, by decide,
    broadcast_aggregate [some (failing "a"), some succeeding, some (failing "b")] [] [1, 2, 0]
      (by decide) (by decide)⟩

/-- C10, as stated, fails: with one failing publisher the returned error is not the
publisher's error itself but a wrapper around it, with a longer message. -/
theorem broadcast_single_is_wrapped :
    ([0, 1] : List Nat).Perm (List.range [some (failing "boom"), some succeeding].length) ∧
    multiBroadcaster.failures [some (failing "boom"), some succeeding] [] = [.base "boom"] ∧
    (multiBroadcaster.Broadcast [some (failing "boom"), some succeeding] [] [0, 1]).map
        error.Error = some "one broadcast failed: boom" ∧
    (multiBroadcaster.Broadcast [some (failing "boom"), some succeeding] [] [0, 1]).map
        error.Error ≠ some (error.Error (.base "boom")) := by
  refine ⟨by decide, rfl, by decide, by decide⟩

/-- C10, amended: when exactly one publisher fails, with error `e`, the error returned by
`multiBroadcaster.Broadcast` is `errors.Wrap(e, "one broadcast failed")`, never `e`
itself: `e` lies under the two layers that `errors.Wrap` adds, the `Cause()` of the
returned error being the message layer "one broadcast failed" and the `Cause()` of that
layer being `e`. -/
theorem broadcast_single (b : multiBroadcaster) (ips : List String) (order : List Nat)
    (e : error) (horder : order.Perm (List.range b.length))
    (hfail : multiBroadcaster.failures b ips = [e]) :
    multiBroadcaster.Broadcast b ips order = errors.Wrap (some e) "one broadcast failed" ∧
    multiBroadcaster.Broadcast b ips order ≠ some e ∧
    (multiBroadcaster.Broadcast b ips order).bind error.Cause? =
      some (.withMessage e "one broadcast failed") ∧
    ((multiBroadcaster.Broadcast b ips order).bind error.Cause?).bind error.Cause? = some e := by
  have hperm := tasks_errs_perm b ips order horder
  rw [hfail] at hperm
  have herrs : (multiBroadcaster.tasks b ips order).errs = [e] := List.perm_singleton.mp hperm
  rw [broadcast_of_one b ips order e herrs]
  refine ⟨rfl, ?_, rfl, rfl⟩
  intro h
  have hsize := congrArg sizeOf h
  simp [errors.Wrap] at hsize
  omega

theorem broadcast_single_witness :
    ([1, 0] : List Nat).Perm (List.range [some (failing "boom"), some succeeding].length) ∧
    multiBroadcaster.failures [some (failing "boom"), some succeeding] [] = [.base "boom"] ∧
    multiBroadcaster.Broadcast [some (failing "boom"), some succeeding] [] [1, 0] =
      errors.Wrap (some (.base "boom")) "one broadcast failed" ∧
    multiBroadcaster.Broadcast [some (failing "boom"), some succeeding] [] [1, 0] ≠
      some (.base "boom") ∧
    (multiBroadcaster.Broadcast [some (failing "boom"), some succeeding] [] [1, 0]).bind
      error.Cause? = some (.withMessage (.base "boom") "one broadcast failed") ∧
    ((multiBroadcaster.Broadcast [some (failing "boom"), some succeeding] [] [1, 0]).bind
      error.Cause?).bind error.Cause? = some (.base "boom") :=
  ⟨by decide, rfl,
    broadcast_single [some (failing "boom"), some succeeding] [] [1, 0] (.base "boom")
      (by decide) rfl⟩

theorem errors.Cause_of_no_cause (e : error) (hnone : e.Cause? = none) : errors.Cause e = e := by
  cases e with
  | base msg => rfl
  | withMessage cause msg => simp [error.Cause?] at hnone
  | withStack err => simp [error.Cause?] at hnone
  | multiError errs => rfl

/-- C11, as stated, fails: when the one failing publisher returns an error that is itself
wrapped, as the DNS publisher does, the cause of the error that
`multiBroadcaster.Broadcast` returns is not that error `e`: `errors.Cause` gives the
innermost error and `Cause()` gives the message layer added by `Broadcast`. -/
theorem broadcast_single_root_cause :
    ([0] : List Nat).Perm
      (List.range [some (failingWith (.withStack (.withMessage (.base "x") "inner")))].length) ∧
    multiBroadcaster.failures
      [some (failingWith (.withStack (.withMessage (.base "x") "inner")))] [] =
      [.withStack (.withMessage (.base "x") "inner")] ∧
    (multiBroadcaster.Broadcast
      [some (failingWith (.withStack (.withMessage (.base "x") "inner")))] [] [0]).map
      errors.Cause = some (.base "x") ∧
    (multiBroadcaster.Broadcast
      [some (failingWith (.withStack (.withMessage (.base "x") "inner")))] [] [0]).map
      errors.Cause ≠ some (.withStack (.withMessage (.base "x") "inner")) ∧
    (multiBroadcaster.Broadcast
      [some (failingWith (.withStack (.withMessage (.base "x") "inner")))] [] [0]).bind
      error.Cause? ≠ some (.withStack (.withMessage (.base "x") "inner")) := by
  refine ⟨by decide, rfl, rfl, ?_, ?_⟩
  · intro h
    have h' : some (error.base "x") = some (.withStack (.withMessage (.base "x") "inner")) := h
    injection h' with h'
    exact error.noConfusion h'
  · intro h
    have h' : some (error.withMessage (.withStack (.withMessage (.base "x") "inner"))
        "one broadcast failed") = some (.withStack (.withMessage (.base "x") "inner")) := h
    injection h' with h'
    exact error.noConfusion h'

/-- C11, amended: when exactly one publisher fails, with error `e`,
`multiBroadcaster.Broadcast` returns a single wrapped error, `errors.Wrap(e, "one
broadcast failed")`: its message is "one broadcast failed: " followed by the message of
`e`, its root cause (`errors.Cause`) is the root cause of `e`, which is `e` itself when
`e` wraps no other error, and it is not the aggregate; the aggregate, a `multiError`
wrapped with "multiple error occured during broadcasting", is returned only when two or
more publishers fail. -/
theorem broadcast_single_wrapped (b : multiBroadcaster) (ips : List String) (order : List Nat)
    (e : error) (horder : order.Perm (List.range b.length))
    (hfail : multiBroadcaster.failures b ips = [e]) :
    (∃ r : error, multiBroadcaster.Broadcast b ips order = some r ∧
      some r = errors.Wrap (some e) "one broadcast failed" ∧
      r.Error = "one broadcast failed: " ++ e.Error ∧
      errors.Cause r = errors.Cause e ∧
      (e.Cause? = none → errors.Cause r = e) ∧
      ∀ errs : List error,
        some r ≠
          errors.Wrap (some (.multiError errs)) "multiple error occured during broadcasting") ∧
    (∀ (b' : multiBroadcaster) (order' : List Nat) (errs : List error),
      order'.Perm (List.range b'.length) →
      multiBroadcaster.Broadcast b' ips order' =
        errors.Wrap (some (.multiError errs)) "multiple error occured during broadcasting" →
      2 ≤ (multiBroadcaster.failures b' ips).length) := by
  have hmsg : "one broadcast failed" ≠ "multiple error occured during broadcasting" := by
    decide
  constructor
  · have hperm := tasks_errs_perm b ips order horder
    rw [hfail] at hperm
    have herrs : (multiBroadcaster.tasks b ips order).errs = [e] := List.perm_singleton.mp hperm
    refine ⟨.withStack (.withMessage e "one broadcast failed"),
      broadcast_of_one b ips order e herrs, rfl, ?_, rfl, ?_, ?_⟩
    · have hjoin : "one broadcast failed" ++ ": " = "one broadcast failed: " := by decide
      simp only [error.Error, hjoin]
    · intro hnone
      exact errors.Cause_of_no_cause e hnone
    · intro errs h
      simp only [errors.Wrap, Option.some.injEq, error.withStack.injEq,
        error.withMessage.injEq] at h
      exact hmsg h.2
  · intro b' order' errs horder' hres
    have hperm := tasks_errs_perm b' ips order' horder'
    rw [← hperm.length_eq]
    rcases herrs : (multiBroadcaster.tasks b' ips order').errs with _ | ⟨x, _ | ⟨y, rest⟩⟩
    · rw [broadcast_of_nil b' ips order' herrs] at hres
      simp [errors.Wrap] at hres
    · rw [broadcast_of_one b' ips order' x herrs] at hres
      simp only [errors.Wrap, Option.some.injEq, error.withStack.injEq,
        error.withMessage.injEq] at hres
      exact absurd hres.2 hmsg
    · simp

theorem broadcast_single_wrapped_witness :
    ([1, 0] : List Nat).Perm
      (List.range [some succeeding,
        some (failingWith (.withStack (.withMessage (.base "x") "inner")))].length) ∧
    multiBroadcaster.failures
      [some succeeding, some (failingWith (.withStack (.withMessage (.base "x") "inner")))] [] =
      [.withStack (.withMessage (.base "x") "inner")] ∧
    ∃ r : error,
      multiBroadcaster.Broadcast
        [some succeeding, some (failingWith (.withStack (.withMessage (.base "x") "inner")))] []
        [1, 0] = some r ∧
      some r = errors.Wrap (some (.withStack (.withMessage (.base "x") "inner")))
        "one broadcast failed" ∧
      r.Error = "one broadcast failed: " ++
        error.Error (.withStack (.withMessage (.base "x") "inner")) ∧
      errors.Cause r = errors.Cause (.withStack (.withMessage (.base "x") "inner")) ∧
      ((error.withStack (.withMessage (.base "x") "inner")).Cause? = none →
        errors.Cause r = .withStack (.withMessage (.base "x") "inner")) ∧
      ∀ errs : List error,
        some r ≠
          errors.Wrap (some (.multiError errs)) "multiple error occured during broadcasting" :=
  ⟨by decide, rfl,
    (broadcast_single_wrapped
      [some succeeding, some (failingWith (.withStack (.withMessage (.base "x") "inner")))] []
      [1, 0] (.withStack (.withMessage (.base "x") "inner")) (by decide) rfl).1⟩

/-! ## Order and address kinds in the resolver -/

/-- C16: `nodeLister.List` does not depend on the order in which the members are listed:
two listings that are permutations of each other give the identical endpoint list, and
so does the same listing resolved twice. -/
theorem list_perm_invariant {σ : Type} (lab : labels σ) (l l' : nodeLister σ) (sel : String)
    (label : σ) (nodes nodes' : List Node)
    (hlabel : nodeLister.List.label lab sel = .ok label)
    (hnodes : l.lister label = .ok nodes) (hnodes' : l'.lister label = .ok nodes')
    (hperm : nodes.Perm nodes') :
    (∃ ips, nodeLister.List lab l sel = .ok ips ∧ nodeLister.List lab l' sel = .ok ips) ∧
    (∀ l'' : nodeLister σ, l''.lister label = .ok nodes →
      nodeLister.List lab l'' sel = nodeLister.List lab l sel) := by
  constructor
  · refine ⟨_, list_ok lab l sel label nodes hlabel hnodes, ?_⟩
    rw [list_ok lab l' sel label nodes' hlabel hnodes']
    congr 1
    apply sortStrings_unique
    · refine (sortStrings_perm _).trans ?_
      rw [listLoop_eq, listLoop_eq, List.nil_append, List.nil_append]
      exact ((hperm.symm.filter _).flatMap_right _)
    · exact sortStrings_sorted _
  · intro l'' hnodes''
    rw [list_ok lab l'' sel label nodes hlabel hnodes'',
      list_ok lab l sel label nodes hlabel hnodes]

theorem list_perm_invariant_witness :
    nodeLister.List.label plainLabels "" = .ok "" ∧
    (cacheOf [healthyNode2, healthyNode1]).lister "" = .ok [healthyNode2, healthyNode1] ∧
    (cacheOf [healthyNode1, healthyNode2]).lister "" = .ok [healthyNode1, healthyNode2] ∧
    [healthyNode2, healthyNode1].Perm [healthyNode1, healthyNode2] ∧
    ∃ ips, nodeLister.List plainLabels (cacheOf [healthyNode2, healthyNode1]) "" = .ok ips ∧
      nodeLister.List plainLabels (cacheOf [healthyNode1, healthyNode2]) "" = .ok ips :=
  ⟨rfl, rfl, rfl, List.Perm.swap _ _ _,
    (list_perm_invariant plainLabels (cacheOf [healthyNode2, healthyNode1])
      (cacheOf [healthyNode1, healthyNode2]) "" "" _ _ rfl rfl rfl (List.Perm.swap _ _ _)).1⟩

/-- C17: `node.IPs` returns the values of the addresses of kind `ExternalIP`, in their
original order, and nothing else; a node with one internal and one external address
yields the external one only. -/
theorem ips_external_only (n : ip8s.node) :
    n.IPs = (n.node.Status.Addresses.filter
      (fun addr => decide (addr.Typ = NodeExternalIP))).map (fun addr => addr.Address) ∧
    (∀ a : String, a ∈ n.IPs ↔
      ∃ addr ∈ n.node.Status.Addresses, addr.Typ = NodeExternalIP ∧ addr.Address = a) ∧
    (∀ (conditions : List NodeCondition) (internal external : String),
      node.IPs ⟨⟨⟨conditions, [⟨NodeInternalIP, internal⟩, ⟨NodeExternalIP, external⟩]⟩⟩⟩ =
        [external] ∧
      node.IPs ⟨⟨⟨conditions, [⟨NodeExternalIP, external⟩, ⟨NodeInternalIP, internal⟩]⟩⟩⟩ =
        [external]) ∧
    node.IPs ⟨healthyInternalAddressesNode⟩ = ["1.2.3.10"] := by
  refine ⟨node.IPs_eq n, node.mem_IPs n, ?_, by decide⟩
  intro conditions internal external
  have hkind : NodeInternalIP ≠ NodeExternalIP := by decide
  constructor <;> simp [node.IPs_eq, hkind]

/-! ## Failed resolutions -/

theorem sendAll_chan_lister {σ : Type} (lab : labels σ) (n : notifier σ) (c : Chan)
    (l : nodeLister σ) (rest : List (nodeLister σ)) :
    (notifier.sendAll lab { n with lister := l } c rest).2 =
      (notifier.sendAll lab n c rest).2 := by
  cases rest with
  | nil => rfl
  | cons l₂ rest => rfl

/-- C19: when the resolution inside `sendIPs` fails, nothing is emitted and the session
keeps its `subsequent` and `lastIPs`; later events are processed as if the failed one had
not happened, and a session that had not emitted yet emits its next successful
resolution. -/
theorem sendIPs_error_unchanged {σ : Type} (lab : labels σ) (n : notifier σ) (c : Chan)
    (err : error) (hlist : n.lister.List lab n.selector = .error err) :
    notifier.sendIPs lab n c = (n, c) ∧
    (∀ later : List (nodeLister σ),
      (notifier.sendAll lab n c (n.lister :: later)).2 = (notifier.sendAll lab n c later).2) ∧
    (∀ (l' : nodeLister σ) (ips : List String),
      nodeLister.List lab l' n.selector = .ok ips → n.subsequent = false →
      (notifier.sendIPs lab { (notifier.sendIPs lab n c).1 with lister := l' }
        (notifier.sendIPs lab n c).2).2 = c ++ [ips]) := by
  have hsend : notifier.sendIPs lab n c = (n, c) := by
    simp [notifier.sendIPs, hlist]
  refine ⟨hsend, ?_, ?_⟩
  · intro later
    have hn : ({ n with lister := n.lister } : notifier σ) = n := rfl
    rw [notifier.sendAll, hn, hsend]
  · intro l' ips hl' hs
    rw [hsend]
    have hlist' : ({ n with lister := l' } : notifier σ).lister.List lab
        ({ n with lister := l' } : notifier σ).selector = .ok ips := hl'
    rw [sendIPs_ok lab _ c ips hlist']
    have hif : ({ n with lister := l' } : notifier σ).subsequent = false ∨
        ips ≠ ({ n with lister := l' } : notifier σ).lastIPs := Or.inl hs
    rw [if_pos hif]

theorem sendIPs_error_unchanged_witness :
    (newNotifierFromClient
        ({ lister := fun _ => .error (.base "down") } : nodeLister String) "").lister.List
      plainLabels "" =
        .error (.withStack (.withMessage (.base "down") "failed to list the nodes")) ∧
    notifier.sendIPs plainLabels
        (newNotifierFromClient
          ({ lister := fun _ => .error (.base "down") } : nodeLister String) "") [] =
      (newNotifierFromClient
        ({ lister := fun _ => .error (.base "down") } : nodeLister String) "", []) :=
  ⟨rfl,
    (sendIPs_error_unchanged plainLabels
      (newNotifierFromClient
        ({ lister := fun _ => .error (.base "down") } : nodeLister String) "") []
      (.withStack (.withMessage (.base "down") "failed to list the nodes")) rfl).1⟩

/-! ## `multiError.Error` -/

theorem stringsJoin_eq_foldr (elems : List String) (sep : String) :
    stringsJoin elems sep = (elems.intersperse sep).foldr (fun a b => a ++ b) "" := by
  induction elems with
  | nil => rfl
  | cons s rest ih =>
    cases rest with
    | nil => simp [stringsJoin]
    | cons t rest =>
      rw [stringsJoin, ih]
      simp [List.intersperse, String.append_assoc]

theorem length_intersperse_succ (sep : String) (elems : List String) (hne : elems ≠ []) :
    (elems.intersperse sep).length + 1 = 2 * elems.length := by
  induction elems with
  | nil => exact absurd rfl hne
  | cons s rest ih =>
    cases rest with
    | nil => simp
    | cons t rest =>
      have h := ih (by simp)
      simp only [List.intersperse, List.length_cons] at h ⊢
      omega

/-- C20: `multiError.Error` returns the messages of the errors, in list order, joined by
the delimiter: the empty string for no error, the message itself for one error, and for
`n` errors the `n` messages with `n-1` delimiters, one between each two neighbours. -/
theorem multiError_message (errs : List error) :
    error.Error (.multiError errs) = stringsJoin (errs.map error.Error) multiErrorSep ∧
    error.Error (.multiError errs) =
      ((errs.map error.Error).intersperse multiErrorSep).foldr (fun a b => a ++ b) "" ∧
    (errs ≠ [] →
      ((errs.map error.Error).intersperse multiErrorSep).length =
        errs.length + (errs.length - 1)) ∧
    multiErrorSep = "\n-----------------------\n" ∧
    error.Error (.multiError []) = "" ∧
    (∀ e : error, error.Error (.multiError [e]) = e.Error) ∧
    (∀ e₁ e₂ : error,
      error.Error (.multiError [e₁, e₂]) = e₁.Error ++ "\n-----------------------\n" ++ e₂.Error) := by
  have hjoin : error.Error (.multiError errs) =
      stringsJoin (errs.map error.Error) multiErrorSep := by
    rw [error.Error, error.msgs_eq_map]
  refine ⟨hjoin, ?_, ?_, rfl, rfl, ?_, ?_⟩
  · rw [hjoin, stringsJoin_eq_foldr]
  · intro hne
    have h := length_intersperse_succ multiErrorSep (errs.map error.Error) (by simpa using hne)
    rw [List.length_map] at h
    omega
  · intro e
    simp [error.Error, error.msgs, stringsJoin]
  · intro e₁ e₂
    simp [error.Error, error.msgs, stringsJoin, multiErrorSep]

theorem multiError_message_witness :
    ([error.base "a", error.base "b", error.base "c"] ≠ []) ∧
    (([error.base "a", error.base "b", error.base "c"].map error.Error).intersperse
      multiErrorSep).length = 3 + (3 - 1) :=
  ⟨by simp, (multiError_message [.base "a", .base "b", .base "c"]).2.2.1 (by simp)⟩

/-! ## Lemmas on maps -/

theorem mapGet_nil {β : Type} (a : String) : mapGet ([] : List (String × β)) a = none := rfl

theorem mapHas_nil {β : Type} (a : String) : mapHas ([] : List (String × β)) a = false := rfl

theorem mapHas_eq_isSome {β : Type} (m : List (String × β)) (a : String) :
    mapHas m a = (mapGet m a).isSome := by
  induction m with
  | nil => rfl
  | cons entry rest ih =>
    by_cases h : entry.1 = a
    · simp [mapHas, mapGet, List.find?_cons, h]
    · simp only [mapHas, mapGet] at ih
      simp [mapHas, mapGet, List.find?_cons, h, ih]

theorem mapGet_mapDelete {β : Type} (m : List (String × β)) (k a : String) :
    mapGet (mapDelete m k) a = if a = k then none else mapGet m a := by
  induction m with
  | nil => simp [mapDelete, mapGet]
  | cons entry rest ih =>
    simp only [mapDelete, mapGet] at ih
    by_cases hk : entry.1 = k
    · by_cases ha : a = k
      · simp [mapDelete, mapGet, List.filter_cons, hk, ha] at ih ⊢
      · have hne : ¬ k = a := fun h => ha h.symm
        simp [mapDelete, mapGet, List.filter_cons, List.find?_cons, hk, ha, hne] at ih ⊢
        exact ih
    · by_cases ha : a = k
      · have hne : ¬ entry.1 = a := fun h => hk (h.trans ha)
        simp [mapDelete, mapGet, List.filter_cons, List.find?_cons, hk, ha] at ih ⊢
      · by_cases he : entry.1 = a
        · simp [mapDelete, mapGet, List.filter_cons, List.find?_cons, hk, ha, he]
        · simp [mapDelete, mapGet, List.filter_cons, List.find?_cons, hk, ha, he] at ih ⊢
          exact ih

theorem mapGet_append_singleton {β : Type} (m : List (String × β)) (k a : String) (v : β) :
    mapGet (m ++ [(k, v)]) a =
      (mapGet m a).or (if a = k then some v else none) := by
  by_cases ha : a = k
  · have hk : k = a := ha.symm
    simp [mapGet, List.find?_append, List.find?_cons, ha]
    cases List.find? (fun entry => decide (entry.1 = k)) m <;> simp
  · have hk : ¬ k = a := fun h => ha h.symm
    simp [mapGet, List.find?_append, List.find?_cons, ha, hk]

theorem mapGet_mapSet {β : Type} (m : List (String × β)) (k a : String) (v : β) :
    mapGet (mapSet m k v) a = if a = k then some v else mapGet m a := by
  rw [mapSet, mapGet_append_singleton, mapGet_mapDelete]
  by_cases ha : a = k
  · simp [ha]
  · simp [ha]

theorem mapHas_mapSet {β : Type} (m : List (String × β)) (k a : String) (v : β) :
    mapHas (mapSet m k v) a = (decide (a = k) || mapHas m a) := by
  rw [mapHas_eq_isSome, mapHas_eq_isSome, mapGet_mapSet]
  by_cases ha : a = k <;> simp [ha]

theorem mapHas_mapDelete {β : Type} (m : List (String × β)) (k a : String) :
    mapHas (mapDelete m k) a = (!decide (a = k) && mapHas m a) := by
  rw [mapHas_eq_isSome, mapHas_eq_isSome, mapGet_mapDelete]
  by_cases ha : a = k <;> simp [ha]

theorem mem_of_mapGet {β : Type} (m : List (String × β)) (k : String) (v : β)
    (hget : mapGet m k = some v) : (k, v) ∈ m := by
  simp only [mapGet, Option.map_eq_some'] at hget
  obtain ⟨entry, hfind, hv⟩ := hget
  have hmem := List.mem_of_find?_eq_some hfind
  have hkey := List.find?_some hfind
  simp only [decide_eq_true_eq] at hkey
  have : entry = (k, v) := by
    rcases entry with ⟨x, y⟩
    simp only at hkey hv
    rw [hkey, hv]
  rw [← this]
  exact hmem

theorem mapGet_of_mem {β : Type} (m : List (String × β)) (k : String) (v : β)
    (hkeys : (m.map Prod.fst).Nodup) (hmem : (k, v) ∈ m) : mapGet m k = some v := by
  induction m with
  | nil => simp at hmem
  | cons entry rest ih =>
    rw [List.map_cons, List.nodup_cons] at hkeys
    rcases List.mem_cons.mp hmem with h | h
    · rw [← h]
      simp [mapGet, List.find?_cons]
    · have hne : entry.1 ≠ k := by
        intro he
        apply hkeys.1
        rw [he]
        exact List.mem_map.mpr ⟨(k, v), h, rfl⟩
      have hrest := ih hkeys.2 h
      simp only [mapGet] at hrest
      simp [mapGet, List.find?_cons, hne, hrest]

theorem keys_mapDelete {β : Type} (m : List (String × β)) (k : String)
    (hkeys : (m.map Prod.fst).Nodup) :
    ((mapDelete m k).map Prod.fst).Nodup ∧ k ∉ (mapDelete m k).map Prod.fst := by
  constructor
  · exact (List.Nodup.sublist ((List.filter_sublist m).map Prod.fst) hkeys)
  · intro hmem
    obtain ⟨entry, hentry, hk⟩ := List.mem_map.mp hmem
    have := (List.mem_filter.mp hentry).2
    simp [hk] at this

theorem keys_mapSet {β : Type} (m : List (String × β)) (k : String) (v : β)
    (hkeys : (m.map Prod.fst).Nodup) : ((mapSet m k v).map Prod.fst).Nodup := by
  have h := keys_mapDelete m k hkeys
  rw [mapSet, List.map_append, List.nodup_append]
  refine ⟨h.1, by simp, ?_⟩
  intro a ha hb
  simp only [List.map_cons, List.map_nil, List.mem_singleton] at hb
  exact h.2 (hb ▸ ha)

/-! ## The partition of `splitIPs` -/

theorem mapHas_fill (acc : List (String × Unit)) (ips : List String) (a : String) :
    mapHas (splitIPs.fill acc ips) a = (mapHas acc a || decide (a ∈ ips)) := by
  induction ips generalizing acc with
  | nil => simp [splitIPs.fill]
  | cons ip rest ih =>
    rw [splitIPs.fill, ih, mapHas_mapSet]
    by_cases h : a = ip
    · simp [h]
    · simp [h, Bool.or_comm]

theorem keys_fill (acc : List (String × Unit)) (ips : List String)
    (hkeys : (acc.map Prod.fst).Nodup) : ((splitIPs.fill acc ips).map Prod.fst).Nodup := by
  induction ips generalizing acc with
  | nil => exact hkeys
  | cons ip rest ih => exact ih _ (keys_mapSet acc ip () hkeys)

theorem recordsAt_append (records : List DNSRecord) (record : DNSRecord) (a : String) :
    recordsAt (records ++ [record]) a =
      recordsAt records a ++ (if record.Content = a then [record] else []) := by
  by_cases h : record.Content = a <;> simp [recordsAt, List.filter_append, h]

theorem splitIPs_append (ips : List String) (records : List DNSRecord) (record : DNSRecord) :
    cloudflareDNSBroadcaster.splitIPs ips (records ++ [record]) =
      splitIPs.step (cloudflareDNSBroadcaster.splitIPs ips records) record := by
  simp [cloudflareDNSBroadcaster.splitIPs, List.foldl_append]

/-- What `splitIPs` returns, address by address: an address is missing when it is desired
and no record has it; the matching record of a desired address is the first record that
has it; the obsolete record of an address is the last record that has it, the first one
not counting when the address is desired. -/
theorem splitIPs_lookup (ips : List String) (records : List DNSRecord) (a : String) :
    mapHas (cloudflareDNSBroadcaster.splitIPs ips records).newIPs a =
      (decide (a ∈ ips) && (recordsAt records a).isEmpty) ∧
    mapGet (cloudflareDNSBroadcaster.splitIPs ips records).commonIPs a =
      (if a ∈ ips then (recordsAt records a).head? else none) ∧
    mapGet (cloudflareDNSBroadcaster.splitIPs ips records).oldIPs a =
      (if a ∈ ips then (recordsAt records a).tail.getLast?
        else (recordsAt records a).getLast?) := by
  induction records using List.reverseRecOn generalizing a with
  | nil =>
    simp [cloudflareDNSBroadcaster.splitIPs, mapHas_fill, mapHas_nil, mapGet_nil, recordsAt]
  | append_singleton records record ih =>
    obtain ⟨hN, hC, hO⟩ := ih a
    obtain ⟨hN', _, _⟩ := ih record.Content
    rw [splitIPs_append, recordsAt_append]
    by_cases hmoved :
        mapHas (cloudflareDNSBroadcaster.splitIPs ips records).newIPs record.Content = true
    · simp only [splitIPs.step, hmoved, if_true]
      rw [mapHas_mapDelete, mapGet_mapSet, hN, hC, hO]
      by_cases ha : a = record.Content
      · subst ha
        rw [hN'] at hmoved
        simp only [Bool.and_eq_true, decide_eq_true_eq, List.isEmpty_iff] at hmoved
        simp [hmoved.1, hmoved.2]
      · have hne : ¬ record.Content = a := fun h => ha h.symm
        simp [ha, hne]
    · have hstay :
          mapHas (cloudflareDNSBroadcaster.splitIPs ips records).newIPs record.Content =
            false := by simpa using hmoved
      simp only [splitIPs.step, hstay, Bool.false_eq_true, if_false]
      rw [mapGet_mapSet, hN, hC, hO]
      by_cases ha : a = record.Content
      · subst ha
        rw [hN'] at hstay
        by_cases hin : record.Content ∈ ips
        · have hocc : recordsAt records record.Content ≠ [] := by
            intro h
            simp [hin, h] at hstay
          obtain ⟨x, rest, hx⟩ := List.exists_cons_of_ne_nil hocc
          simp [hin, hx]
        · simp [hin]
      · have hne : ¬ record.Content = a := fun h => ha h.symm
        simp [ha, hne]

theorem splitIPs_keys (ips : List String) (records : List DNSRecord) :
    ((cloudflareDNSBroadcaster.splitIPs ips records).newIPs.map Prod.fst).Nodup ∧
    ((cloudflareDNSBroadcaster.splitIPs ips records).commonIPs.map Prod.fst).Nodup ∧
    ((cloudflareDNSBroadcaster.splitIPs ips records).oldIPs.map Prod.fst).Nodup := by
  induction records using List.reverseRecOn with
  | nil =>
    exact ⟨keys_fill [] ips List.nodup_nil, List.nodup_nil, List.nodup_nil⟩
  | append_singleton records record ih =>
    obtain ⟨hN, hC, hO⟩ := ih
    rw [splitIPs_append]
    by_cases hmoved :
        mapHas (cloudflareDNSBroadcaster.splitIPs ips records).newIPs record.Content = true
    · simp only [splitIPs.step, hmoved, if_true]
      exact ⟨(keys_mapDelete _ _ hN).1, keys_mapSet _ _ _ hC, hO⟩
    · have hstay :
          mapHas (cloudflareDNSBroadcaster.splitIPs ips records).newIPs record.Content =
            false := by simpa using hmoved
      simp only [splitIPs.step, hstay, Bool.false_eq_true, if_false]
      exact ⟨hN, hC, keys_mapSet _ _ _ hO⟩

theorem recordsAt_of_nodup (records : List DNSRecord) (record : DNSRecord)
    (hnodup : (records.map (fun r => r.Content)).Nodup) (hmem : record ∈ records) :
    recordsAt records record.Content = [record] := by
  induction records with
  | nil => simp at hmem
  | cons x rest ih =>
    rw [List.map_cons, List.nodup_cons] at hnodup
    have hrest : ∀ y ∈ rest, y.Content ≠ x.Content := by
      intro y hy he
      exact hnodup.1 (List.mem_map.mpr ⟨y, hy, he⟩)
    rcases List.mem_cons.mp hmem with h | h
    · subst h
      have hnone : recordsAt rest record.Content = [] := by
        simp only [recordsAt, List.filter_eq_nil_iff, decide_eq_true_eq]
        exact fun y hy => hrest y hy
      simp only [recordsAt] at hnone
      simp [recordsAt, List.filter_cons, hnone]
    · have hne : ¬ x.Content = record.Content := fun he => hrest record h he.symm
      have := ih hnodup.2 h
      simp only [recordsAt] at this
      simp [recordsAt, List.filter_cons, hne, this]

theorem recordsAt_tail_of_nodup (records : List DNSRecord) (a : String)
    (hnodup : (records.map (fun r => r.Content)).Nodup) : (recordsAt records a).tail = [] := by
  rcases hocc : recordsAt records a with _ | ⟨x, rest⟩
  · rfl
  · have hx : x ∈ recordsAt records a := by rw [hocc]; exact List.mem_cons_self x rest
    have hx' := List.mem_filter.mp hx
    have ha : x.Content = a := by simpa using hx'.2
    have := recordsAt_of_nodup records x hnodup hx'.1
    rw [ha, hocc] at this
    simp only [List.cons.injEq] at this
    simp [this.2]

theorem mem_recordsAt (records : List DNSRecord) (a : String) (record : DNSRecord) :
    record ∈ recordsAt records a ↔ record ∈ records ∧ record.Content = a := by
  simp [recordsAt, List.mem_filter]

/-- C12, as stated, fails: of two remote records with the desired address `1.2.3.4` the
second is put in the obsolete group, so that this address is a key of both groups; and
with no desired address the first of the two is in no group at all. -/
theorem splitIPs_same_address :
    recordB.Content ∈ ["1.2.3.4"] ∧
    ("1.2.3.4", recordB) ∈ (cloudflareDNSBroadcaster.splitIPs ["1.2.3.4"] [recordA, recordB]).oldIPs ∧
    mapHas (cloudflareDNSBroadcaster.splitIPs ["1.2.3.4"] [recordA, recordB]).oldIPs "1.2.3.4" =
      true ∧
    mapHas (cloudflareDNSBroadcaster.splitIPs ["1.2.3.4"] [recordA, recordB]).commonIPs
      "1.2.3.4" = true ∧
    (∀ k : String,
      (k, recordA) ∉ (cloudflareDNSBroadcaster.splitIPs [] [recordA, recordB]).oldIPs ∧
      (k, recordA) ∉ (cloudflareDNSBroadcaster.splitIPs [] [recordA, recordB]).commonIPs) := by
  refine ⟨by decide, by decide, by decide, by decide, ?_⟩
  intro k
  have hold : (cloudflareDNSBroadcaster.splitIPs [] [recordA, recordB]).oldIPs =
      [("1.2.3.4", recordB)] := by decide
  have hcommon : (cloudflareDNSBroadcaster.splitIPs [] [recordA, recordB]).commonIPs = [] := by
    decide
  rw [hold, hcommon]
  have hne : recordA ≠ recordB := by decide
  simp [hne]

theorem count_content (records : List DNSRecord) (a : String) :
    (records.map (fun r => r.Content)).count a = (recordsAt records a).length := by
  induction records with
  | nil => rfl
  | cons x rest ih =>
    simp only [recordsAt] at ih
    by_cases h : x.Content = a
    · simp [recordsAt, List.filter_cons, List.count_cons, h, ih]
    · simp [recordsAt, List.filter_cons, List.count_cons, h, ih]

theorem recordsAt_of_count_one (records : List DNSRecord) (record : DNSRecord)
    (hmem : record ∈ records)
    (hone : (records.map (fun r => r.Content)).count record.Content = 1) :
    recordsAt records record.Content = [record] := by
  rw [count_content] at hone
  have hin : record ∈ recordsAt records record.Content :=
    (mem_recordsAt records record.Content record).mpr ⟨hmem, rfl⟩
  obtain ⟨x, hx⟩ := List.length_eq_one.mp hone
  rw [hx] at hin ⊢
  rw [List.mem_singleton.mp hin]

/-- C12, amended: `splitIPs` puts every remote record whose address no other remote
record carries in exactly one of the groups obsolete and matching, under its address: in
obsolete if and only if its address is not desired, in matching if and only if it is;
such a record is not dropped and its address is not a key of both groups.  Whatever the
records, the address of every remote record is a key of at least one of the two groups,
and every entry of the two groups is a remote record under its own address. -/
theorem splitIPs_records_partition (ips : List String) (records : List DNSRecord) :
    (∀ record ∈ records, (records.map (fun r => r.Content)).count record.Content = 1 →
      ((record.Content, record) ∈ (cloudflareDNSBroadcaster.splitIPs ips records).oldIPs ↔
        record.Content ∉ ips) ∧
      ((record.Content, record) ∈ (cloudflareDNSBroadcaster.splitIPs ips records).commonIPs ↔
        record.Content ∈ ips) ∧
      ¬ ((record.Content, record) ∈ (cloudflareDNSBroadcaster.splitIPs ips records).oldIPs ∧
        (record.Content, record) ∈ (cloudflareDNSBroadcaster.splitIPs ips records).commonIPs)) ∧
    (∀ a : String, (records.map (fun r => r.Content)).count a ≤ 1 →
      ¬ (mapHas (cloudflareDNSBroadcaster.splitIPs ips records).oldIPs a = true ∧
        mapHas (cloudflareDNSBroadcaster.splitIPs ips records).commonIPs a = true)) ∧
    (∀ record ∈ records,
      mapHas (cloudflareDNSBroadcaster.splitIPs ips records).oldIPs record.Content = true ∨
        mapHas (cloudflareDNSBroadcaster.splitIPs ips records).commonIPs record.Content = true) ∧
    (∀ (k : String) (record : DNSRecord),
      (k, record) ∈ (cloudflareDNSBroadcaster.splitIPs ips records).oldIPs ∨
        (k, record) ∈ (cloudflareDNSBroadcaster.splitIPs ips records).commonIPs →
      record ∈ records ∧ record.Content = k) := by
  have hkeys := splitIPs_keys ips records
  have hold : ∀ record ∈ records,
      (records.map (fun r => r.Content)).count record.Content = 1 →
      ((record.Content, record) ∈ (cloudflareDNSBroadcaster.splitIPs ips records).oldIPs ↔
        record.Content ∉ ips) := by
    intro record hmem hone
    have hO := (splitIPs_lookup ips records record.Content).2.2
    rw [recordsAt_of_count_one records record hmem hone] at hO
    constructor
    · intro h hin
      have hget := mapGet_of_mem _ _ _ hkeys.2.2 h
      rw [hO, if_pos hin] at hget
      simp at hget
    · intro hin
      apply mem_of_mapGet
      rw [hO, if_neg hin]
      rfl
  have hcommon : ∀ record ∈ records,
      (records.map (fun r => r.Content)).count record.Content = 1 →
      ((record.Content, record) ∈ (cloudflareDNSBroadcaster.splitIPs ips records).commonIPs ↔
        record.Content ∈ ips) := by
    intro record hmem hone
    have hC := (splitIPs_lookup ips records record.Content).2.1
    rw [recordsAt_of_count_one records record hmem hone] at hC
    constructor
    · intro h
      by_contra hin
      have hget := mapGet_of_mem _ _ _ hkeys.2.1 h
      rw [hC, if_neg hin] at hget
      simp at hget
    · intro hin
      apply mem_of_mapGet
      rw [hC, if_pos hin]
      rfl
  refine ⟨fun record hmem hone =>
    ⟨hold record hmem hone, hcommon record hmem hone, ?_⟩, ?_, ?_, ?_⟩
  · rintro ⟨h1, h2⟩
    exact (hold record hmem hone).mp h1 ((hcommon record hmem hone).mp h2)
  · rintro a hcount ⟨h1, h2⟩
    obtain ⟨_, hC, hO⟩ := splitIPs_lookup ips records a
    rw [mapHas_eq_isSome, hO] at h1
    rw [mapHas_eq_isSome, hC] at h2
    rw [count_content] at hcount
    by_cases hin : a ∈ ips
    · rw [if_pos hin] at h1
      rcases hocc : recordsAt records a with _ | ⟨x, _ | ⟨y, rest⟩⟩
      · rw [hocc] at h1
        simp at h1
      · rw [hocc] at h1
        simp at h1
      · rw [hocc] at hcount
        simp at hcount
    · rw [if_neg hin] at h2
      simp at h2
  · intro record hmem
    obtain ⟨_, hC, hO⟩ := splitIPs_lookup ips records record.Content
    have hin : record ∈ recordsAt records record.Content :=
      (mem_recordsAt records record.Content record).mpr ⟨hmem, rfl⟩
    obtain ⟨x, rest, hocc⟩ := List.exists_cons_of_ne_nil (List.ne_nil_of_mem hin)
    rw [mapHas_eq_isSome, mapHas_eq_isSome, hC, hO]
    by_cases hk : record.Content ∈ ips
    · right
      rw [if_pos hk, hocc]
      rfl
    · left
      rw [if_neg hk, hocc]
      simp [List.getLast?_cons_cons, List.getLast?_eq_getLast, Option.isSome_iff_exists]
  · intro k record h
    obtain ⟨_, hC, hO⟩ := splitIPs_lookup ips records k
    have hin : record ∈ recordsAt records k := by
      rcases h with h | h
      · have hget := mapGet_of_mem _ _ _ hkeys.2.2 h
        rw [hO] at hget
        by_cases hk : k ∈ ips
        · rw [if_pos hk] at hget
          exact List.mem_of_mem_tail (List.mem_of_mem_getLast? hget)
        · rw [if_neg hk] at hget
          exact List.mem_of_mem_getLast? hget
      · have hget := mapGet_of_mem _ _ _ hkeys.2.1 h
        rw [hC] at hget
        by_cases hk : k ∈ ips
        · rw [if_pos hk] at hget
          exact List.mem_of_mem_head? hget
        · rw [if_neg hk] at hget
          simp at hget
    exact (mem_recordsAt records k record).mp hin

theorem splitIPs_records_partition_witness :
    recordC ∈ [recordA, recordB, recordC] ∧
    ([recordA, recordB, recordC].map (fun r => r.Content)).count recordC.Content = 1 ∧
    ((recordC.Content, recordC) ∈
        (cloudflareDNSBroadcaster.splitIPs ["1.2.3.5"] [recordA, recordB, recordC]).oldIPs ↔
      recordC.Content ∉ ["1.2.3.5"]) ∧
    ((recordC.Content, recordC) ∈
        (cloudflareDNSBroadcaster.splitIPs ["1.2.3.5"] [recordA, recordB, recordC]).commonIPs ↔
      recordC.Content ∈ ["1.2.3.5"]) ∧
    ¬ ((recordC.Content, recordC) ∈
        (cloudflareDNSBroadcaster.splitIPs ["1.2.3.5"] [recordA, recordB, recordC]).oldIPs ∧
      (recordC.Content, recordC) ∈
        (cloudflareDNSBroadcaster.splitIPs ["1.2.3.5"] [recordA, recordB, recordC]).commonIPs) :=
  ⟨by decide, by decide,
    (splitIPs_records_partition ["1.2.3.5"] [recordA, recordB, recordC]).1 recordC (by decide)
      (by decide)⟩

theorem recordsAt_isEmpty_iff (records : List DNSRecord) (a : String) :
    (recordsAt records a).isEmpty = true ↔ ∀ record ∈ records, record.Content ≠ a := by
  simp [recordsAt, List.isEmpty_iff, List.filter_eq_nil_iff]

theorem recordsAt_head?_isSome_iff (records : List DNSRecord) (a : String) :
    (recordsAt records a).head?.isSome = true ↔ ∃ record ∈ records, record.Content = a := by
  rcases hocc : recordsAt records a with _ | ⟨x, rest⟩
  · have hnone := (recordsAt_isEmpty_iff records a).mp (by simp [hocc])
    simp only [List.head?_nil, Option.isSome_none, Bool.false_eq_true, false_iff]
    rintro ⟨record, hmem, hc⟩
    exact hnone record hmem hc
  · have hx : x ∈ recordsAt records a := by rw [hocc]; exact List.mem_cons_self x rest
    have hx' := (mem_recordsAt records a x).mp hx
    simp only [List.head?_cons, Option.isSome_some, true_iff]
    exact ⟨x, hx'.1, hx'.2⟩

/-- C13: each desired address is a key of exactly one of the groups missing and matching
of `splitIPs`: of missing if and only if no remote record has it as content, of matching
if and only if some remote record has it; the keys of the two groups are desired
addresses, each held once. -/
theorem splitIPs_desired_partition (ips : List String) (records : List DNSRecord) (a : String)
    (ha : a ∈ ips) :
    (mapHas (cloudflareDNSBroadcaster.splitIPs ips records).newIPs a = true ↔
      ∀ record ∈ records, record.Content ≠ a) ∧
    (mapHas (cloudflareDNSBroadcaster.splitIPs ips records).commonIPs a = true ↔
      ∃ record ∈ records, record.Content = a) ∧
    (mapHas (cloudflareDNSBroadcaster.splitIPs ips records).newIPs a = true ↔
      ¬ mapHas (cloudflareDNSBroadcaster.splitIPs ips records).commonIPs a = true) ∧
    (∀ k : String,
      mapHas (cloudflareDNSBroadcaster.splitIPs ips records).newIPs k = true ∨
        mapHas (cloudflareDNSBroadcaster.splitIPs ips records).commonIPs k = true →
      k ∈ ips) ∧
    ((cloudflareDNSBroadcaster.splitIPs ips records).newIPs.map Prod.fst).Nodup ∧
    ((cloudflareDNSBroadcaster.splitIPs ips records).commonIPs.map Prod.fst).Nodup := by
  obtain ⟨hN, hC, _⟩ := splitIPs_lookup ips records a
  have hkeys := splitIPs_keys ips records
  have hnew : mapHas (cloudflareDNSBroadcaster.splitIPs ips records).newIPs a = true ↔
      ∀ record ∈ records, record.Content ≠ a := by
    rw [hN, ← recordsAt_isEmpty_iff]
    simp [ha]
  have hcommon : mapHas (cloudflareDNSBroadcaster.splitIPs ips records).commonIPs a = true ↔
      ∃ record ∈ records, record.Content = a := by
    rw [mapHas_eq_isSome, hC, if_pos ha]
    exact recordsAt_head?_isSome_iff records a
  refine ⟨hnew, hcommon, ?_, ?_, hkeys.1, hkeys.2.1⟩
  · rw [hnew, hcommon]
    constructor
    · rintro h ⟨record, hmem, hc⟩
      exact h record hmem hc
    · intro h record hmem hc
      exact h ⟨record, hmem, hc⟩
  · intro k hk
    obtain ⟨hN', hC', _⟩ := splitIPs_lookup ips records k
    by_contra hin
    rcases hk with hk | hk
    · rw [hN'] at hk
      simp [hin] at hk
    · rw [mapHas_eq_isSome, hC', if_neg hin] at hk
      simp at hk

theorem splitIPs_desired_partition_witness :
    "1.2.3.5" ∈ ["1.2.3.5", "1.2.3.6", "1.2.3.5"] ∧
    (mapHas (cloudflareDNSBroadcaster.splitIPs ["1.2.3.5", "1.2.3.6", "1.2.3.5"]
        [recordA, recordB, recordC]).commonIPs "1.2.3.5" = true ↔
      ∃ record ∈ [recordA, recordB, recordC], record.Content = "1.2.3.5") :=
  ⟨by decide,
    (splitIPs_desired_partition ["1.2.3.5", "1.2.3.6", "1.2.3.5"] [recordA, recordB, recordC]
      "1.2.3.5" (by decide)).2.1⟩

/-! ## The calls of `cloudflareDNSBroadcaster.Broadcast` -/

theorem loop_all_ok {α : Type} (api : cloudflareAPI) (call : α → apiCall)
    (message : α → String) (issued : List apiCall) (entries : List α)
    (hok : ∀ entry ∈ entries, api.run (call entry) = none) :
    cloudflareDNSBroadcaster.Broadcast.loop api call message issued entries =
      (none, issued ++ entries.map call) := by
  induction entries generalizing issued with
  | nil => simp [cloudflareDNSBroadcaster.Broadcast.loop]
  | cons entry rest ih =>
    have hentry := hok entry (List.mem_cons_self entry rest)
    rw [cloudflareDNSBroadcaster.Broadcast.loop]
    simp only [hentry]
    rw [ih _ (fun x hx => hok x (List.mem_cons_of_mem entry hx))]
    simp

theorem loop_fail {α : Type} (api : cloudflareAPI) (call : α → apiCall)
    (message : α → String) (issued : List apiCall) (before : List α) (entry : α)
    (after : List α) (e : error)
    (hok : ∀ x ∈ before, api.run (call x) = none) (hfail : api.run (call entry) = some e) :
    cloudflareDNSBroadcaster.Broadcast.loop api call message issued
        (before ++ entry :: after) =
      (errors.Wrap (some e) (message entry), issued ++ before.map call ++ [call entry]) := by
  induction before generalizing issued with
  | nil =>
    rw [List.nil_append, cloudflareDNSBroadcaster.Broadcast.loop]
    simp [hfail, errors.Wrap]
  | cons x rest ih =>
    have hx := hok x (List.mem_cons_self x rest)
    rw [List.cons_append, cloudflareDNSBroadcaster.Broadcast.loop]
    simp only [hx]
    rw [ih _ (fun y hy => hok y (List.mem_cons_of_mem x hy))]
    simp

theorem loop_none_iff {α : Type} (api : cloudflareAPI) (call : α → apiCall)
    (message : α → String) (issued : List apiCall) (entries : List α) :
    (cloudflareDNSBroadcaster.Broadcast.loop api call message issued entries).1 = none ↔
      ∀ entry ∈ entries, api.run (call entry) = none := by
  induction entries generalizing issued with
  | nil => simp [cloudflareDNSBroadcaster.Broadcast.loop]
  | cons entry rest ih =>
    rw [cloudflareDNSBroadcaster.Broadcast.loop]
    rcases hrun : api.run (call entry) with _ | e
    · simp only [ih, List.mem_cons, forall_eq_or_imp, hrun, true_and]
    · simp [errors.Wrap, hrun]

theorem apply_none_iff (b : cloudflareDNSBroadcaster) (ord : mapOrder) (zoneID : String)
    (g : splitIPs.groups) :
    (cloudflareDNSBroadcaster.Broadcast.apply b ord zoneID g).1 = none ↔
      ∀ call ∈ cloudflareDNSBroadcaster.Broadcast.planned b ord zoneID g,
        b.api.run call = none := by
  simp only [cloudflareDNSBroadcaster.Broadcast.planned, List.mem_append, List.mem_map]
  unfold cloudflareDNSBroadcaster.Broadcast.apply
  constructor
  · intro h
    rcases hdel : (cloudflareDNSBroadcaster.Broadcast.loop b.api
        (fun entry : String × DNSRecord => apiCall.DeleteDNSRecord zoneID entry.2.ID)
        (fun entry => "failed to delete a record id:" ++ entry.2.ID) []
        (ord.range g.oldIPs)) with ⟨r1, log1⟩
    simp only [hdel] at h
    rcases r1 with _ | e1
    · rcases hupd : (cloudflareDNSBroadcaster.Broadcast.loop b.api
          (fun entry : String × DNSRecord =>
            apiCall.UpdateDNSRecord zoneID entry.2.ID (b.newRecord entry.1))
          (fun entry => "failed to update a record id:" ++ entry.2.ID) log1
          (ord.range g.commonIPs)) with ⟨r2, log2⟩
      simp only [hupd] at h
      rcases r2 with _ | e2
      · have h1 := (loop_none_iff _ _ _ _ _).mp (congrArg Prod.fst hdel)
        have h2 := (loop_none_iff _ _ _ _ _).mp (congrArg Prod.fst hupd)
        have h3 := (loop_none_iff _ _ _ _ _).mp h
        rintro call ((⟨x, hx, rfl⟩ | ⟨x, hx, rfl⟩) | ⟨x, hx, rfl⟩)
        · exact h1 x hx
        · exact h2 x hx
        · exact h3 x hx
      · simp at h
    · simp at h
  · intro h
    rw [loop_all_ok _ _ _ _ _ (fun x hx => h _ (Or.inl (Or.inl ⟨x, hx, rfl⟩)))]
    simp only
    rw [loop_all_ok _ _ _ _ _ (fun x hx => h _ (Or.inl (Or.inr ⟨x, hx, rfl⟩)))]
    simp only
    rw [loop_all_ok _ _ _ _ _ (fun x hx => h _ (Or.inr ⟨x, hx, rfl⟩))]

theorem apply_all_ok (b : cloudflareDNSBroadcaster) (ord : mapOrder) (zoneID : String)
    (g : splitIPs.groups)
    (hok : ∀ call ∈ cloudflareDNSBroadcaster.Broadcast.planned b ord zoneID g,
      b.api.run call = none) :
    cloudflareDNSBroadcaster.Broadcast.apply b ord zoneID g =
      (none, cloudflareDNSBroadcaster.Broadcast.planned b ord zoneID g) := by
  simp only [cloudflareDNSBroadcaster.Broadcast.planned, List.mem_append, List.mem_map] at hok
  unfold cloudflareDNSBroadcaster.Broadcast.apply
  rw [loop_all_ok _ _ _ _ _ (fun x hx => hok _ (Or.inl (Or.inl ⟨x, hx, rfl⟩)))]
  simp only
  rw [loop_all_ok _ _ _ _ _ (fun x hx => hok _ (Or.inl (Or.inr ⟨x, hx, rfl⟩)))]
  simp only
  rw [loop_all_ok _ _ _ _ _ (fun x hx => hok _ (Or.inr ⟨x, hx, rfl⟩))]
  simp [cloudflareDNSBroadcaster.Broadcast.planned]

theorem apply_delete_fail (b : cloudflareDNSBroadcaster) (ord : mapOrder) (zoneID : String)
    (g : splitIPs.groups) (before : List (String × DNSRecord)) (k : String)
    (record : DNSRecord) (after : List (String × DNSRecord)) (e : error)
    (hrange : ord.range g.oldIPs = before ++ (k, record) :: after)
    (hok : ∀ x ∈ before, b.api.DeleteDNSRecord zoneID x.2.ID = none)
    (hfail : b.api.DeleteDNSRecord zoneID record.ID = some e) :
    cloudflareDNSBroadcaster.Broadcast.apply b ord zoneID g =
      (errors.Wrap (some e) ("failed to delete a record id:" ++ record.ID),
        before.map (fun x => apiCall.DeleteDNSRecord zoneID x.2.ID) ++
          [apiCall.DeleteDNSRecord zoneID record.ID]) := by
  unfold cloudflareDNSBroadcaster.Broadcast.apply
  rw [hrange, loop_fail b.api
    (fun entry : String × DNSRecord => apiCall.DeleteDNSRecord zoneID entry.2.ID)
    (fun entry => "failed to delete a record id:" ++ entry.2.ID) [] before (k, record) after e
    hok hfail]
  simp [errors.Wrap]

theorem broadcast_of_records (b : cloudflareDNSBroadcaster) (ord : mapOrder)
    (ips : List String) (zoneID : String) (records : List DNSRecord)
    (hzone : b.api.ZoneIDByName b.dnsName = .ok zoneID)
    (hfetch : b.api.DNSRecords zoneID
      { ID := "", Typ := "A", Name := b.dnsName, Content := "" } = .ok records) :
    cloudflareDNSBroadcaster.Broadcast b ord ips =
      cloudflareDNSBroadcaster.Broadcast.apply b ord zoneID
        (cloudflareDNSBroadcaster.splitIPs ips records) := by
  simp [cloudflareDNSBroadcaster.Broadcast, hzone, hfetch]

theorem mapDelete_of_not_mem {β : Type} (m : List (String × β)) (k : String)
    (hk : k ∉ m.map Prod.fst) : mapDelete m k = m := by
  rw [mapDelete, List.filter_eq_self]
  intro entry hentry
  have hne : entry.1 ≠ k := fun h => hk (List.mem_map.mpr ⟨entry, hentry, h⟩)
  simp [hne]

theorem splitIPs_nil_new_common (records : List DNSRecord) :
    (cloudflareDNSBroadcaster.splitIPs [] records).newIPs = [] ∧
    (cloudflareDNSBroadcaster.splitIPs [] records).commonIPs = [] := by
  induction records using List.reverseRecOn with
  | nil => exact ⟨rfl, rfl⟩
  | append_singleton records record ih =>
    rw [splitIPs_append]
    simp [splitIPs.step, ih.1, ih.2, mapHas_nil]

theorem splitIPs_nil_old (records : List DNSRecord)
    (hnodup : (records.map (fun r => r.Content)).Nodup) :
    (cloudflareDNSBroadcaster.splitIPs [] records).oldIPs =
      records.map (fun r => (r.Content, r)) := by
  induction records using List.reverseRecOn with
  | nil => rfl
  | append_singleton records record ih =>
    rw [List.map_append, List.nodup_append] at hnodup
    have hnot : record.Content ∉ (records.map (fun r => (r.Content, r))).map Prod.fst := by
      intro hmem
      rw [List.map_map] at hmem
      exact hnodup.2.2 hmem (by simp)
    rw [splitIPs_append]
    simp only [splitIPs.step, (splitIPs_nil_new_common records).1, mapHas_nil,
      Bool.false_eq_true, if_false, ih hnodup.1, mapSet, mapDelete_of_not_mem _ _ hnot]
    simp

/-- C14, as stated, fails: with no desired address and two remote records that carry the
same address, the obsolete group holds only the second record and the publisher issues
no deletion for the first. -/
theorem broadcast_empty_misses_record :
    (cloudflareDNSBroadcaster.splitIPs [] [recordA, recordB]).oldIPs = [("1.2.3.4", recordB)] ∧
    (cloudflareDNSBroadcaster.Broadcast
      { api := zoneOf [recordA, recordB] [], dnsName := "example.com" } storedOrder []).2 =
      [apiCall.DeleteDNSRecord "zone1" "b2"] ∧
    apiCall.DeleteDNSRecord "zone1" recordA.ID ∉
      (cloudflareDNSBroadcaster.Broadcast
        { api := zoneOf [recordA, recordB] [], dnsName := "example.com" } storedOrder []).2 := by
  refine ⟨by decide, by decide, by decide⟩

/-- C14, amended: when the desired endpoint list is empty, `splitIPs` returns empty
missing and matching groups; when moreover the remote records have pairwise distinct
addresses, the obsolete group holds every remote record, and the publisher, its calls
succeeding, issues one deletion per remote record and no other call; with no remote
record it issues no call at all. -/
theorem splitIPs_empty_desired (records : List DNSRecord) :
    (cloudflareDNSBroadcaster.splitIPs [] records).newIPs = [] ∧
    (cloudflareDNSBroadcaster.splitIPs [] records).commonIPs = [] ∧
    ((records.map (fun r => r.Content)).Nodup →
      (cloudflareDNSBroadcaster.splitIPs [] records).oldIPs =
        records.map (fun r => (r.Content, r)) ∧
      ∀ (b : cloudflareDNSBroadcaster) (ord : mapOrder) (zoneID : String),
        ord.valid →
        b.api.ZoneIDByName b.dnsName = .ok zoneID →
        b.api.DNSRecords zoneID { ID := "", Typ := "A", Name := b.dnsName, Content := "" } =
          .ok records →
        (∀ record ∈ records, b.api.DeleteDNSRecord zoneID record.ID = none) →
        (cloudflareDNSBroadcaster.Broadcast b ord []).1 = none ∧
        ((cloudflareDNSBroadcaster.Broadcast b ord []).2).Perm
          (records.map (fun r => apiCall.DeleteDNSRecord zoneID r.ID)) ∧
        (records = [] → (cloudflareDNSBroadcaster.Broadcast b ord []).2 = [])) := by
  refine ⟨(splitIPs_nil_new_common records).1, (splitIPs_nil_new_common records).2, ?_⟩
  intro hnodup
  have hold := splitIPs_nil_old records hnodup
  refine ⟨hold, ?_⟩
  intro b ord zoneID hvalid hzone hfetch hdel
  have hrange : (ord.range (cloudflareDNSBroadcaster.splitIPs [] records).oldIPs).Perm
      (records.map (fun r => (r.Content, r))) := by
    rw [← hold]
    exact hvalid _ _
  have hnil₁ : ord.range (cloudflareDNSBroadcaster.splitIPs [] records).newIPs = [] := by
    rw [(splitIPs_nil_new_common records).1]
    exact List.Perm.eq_nil (hvalid _ _)
  have hnil₂ : ord.range (cloudflareDNSBroadcaster.splitIPs [] records).commonIPs = [] := by
    rw [(splitIPs_nil_new_common records).2]
    exact List.Perm.eq_nil (hvalid _ _)
  have hplanned : cloudflareDNSBroadcaster.Broadcast.planned b ord zoneID
      (cloudflareDNSBroadcaster.splitIPs [] records) =
      (ord.range (cloudflareDNSBroadcaster.splitIPs [] records).oldIPs).map
        (fun entry => apiCall.DeleteDNSRecord zoneID entry.2.ID) := by
    simp [cloudflareDNSBroadcaster.Broadcast.planned, hnil₁, hnil₂]
  have hok : ∀ call ∈ cloudflareDNSBroadcaster.Broadcast.planned b ord zoneID
      (cloudflareDNSBroadcaster.splitIPs [] records), b.api.run call = none := by
    rw [hplanned]
    intro call hcall
    obtain ⟨entry, hentry, rfl⟩ := List.mem_map.mp hcall
    obtain ⟨record, hrecord, rfl⟩ := List.mem_map.mp (hrange.mem_iff.mp hentry)
    exact hdel record hrecord
  have hperm : ((cloudflareDNSBroadcaster.Broadcast b ord []).2).Perm
      (records.map (fun r => apiCall.DeleteDNSRecord zoneID r.ID)) := by
    rw [broadcast_of_records b ord [] zoneID records hzone hfetch, apply_all_ok b ord zoneID _ hok,
      hplanned]
    have h := hrange.map (fun entry : String × DNSRecord =>
      apiCall.DeleteDNSRecord zoneID entry.2.ID)
    rw [List.map_map] at h
    exact h
  refine ⟨?_, hperm, ?_⟩
  · rw [broadcast_of_records b ord [] zoneID records hzone hfetch, apply_all_ok b ord zoneID _ hok]
  · intro hempty
    rw [hempty] at hperm
    exact List.Perm.eq_nil hperm

theorem splitIPs_empty_desired_witness :
    ([recordA, recordC].map (fun r => r.Content)).Nodup ∧
    (cloudflareDNSBroadcaster.splitIPs [] [recordA, recordC]).oldIPs =
      [recordA, recordC].map (fun r => (r.Content, r)) ∧
    reversedOrder.valid ∧
    ((cloudflareDNSBroadcaster.Broadcast
      { api := zoneOf [recordA, recordC] [], dnsName := "example.com" } reversedOrder []).2).Perm
      ([recordA, recordC].map (fun r => apiCall.DeleteDNSRecord "zone1" r.ID)) :=
  have hvalid : reversedOrder.valid := fun _ m => List.reverse_perm m
  have h := (splitIPs_empty_desired [recordA, recordC]).2.2 (by decide)
  ⟨by decide, h.1, hvalid,
    (h.2 { api := zoneOf [recordA, recordC] [], dnsName := "example.com" } reversedOrder "zone1"
      hvalid rfl rfl (by simp [zoneOf, recordA, recordC])).2.1⟩

/-- C18: in `cloudflareDNSBroadcaster.Broadcast`, when the deletion of an obsolete record
fails, the returned error carries the message "failed to delete a record id:" with the id
of that record, it is the error of the call wrapped by `errors.Wrapf` with that message,
and the failing call is the last one issued: no further deletion, no update and no
creation follows.  `Broadcast` returns
`nil` exactly when the zone resolution, the fetch and every deletion, update and creation
succeed, all of them having then been issued. -/
theorem broadcast_delete_fail_fast (b : cloudflareDNSBroadcaster) (ord : mapOrder)
    (ips : List String) :
    (∀ (zoneID : String) (records : List DNSRecord) (before : List (String × DNSRecord))
      (k : String) (record : DNSRecord) (after : List (String × DNSRecord)) (e : error),
      b.api.ZoneIDByName b.dnsName = .ok zoneID →
      b.api.DNSRecords zoneID { ID := "", Typ := "A", Name := b.dnsName, Content := "" } =
        .ok records →
      ord.range (cloudflareDNSBroadcaster.splitIPs ips records).oldIPs =
        before ++ (k, record) :: after →
      (∀ x ∈ before, b.api.DeleteDNSRecord zoneID x.2.ID = none) →
      b.api.DeleteDNSRecord zoneID record.ID = some e →
      (cloudflareDNSBroadcaster.Broadcast b ord ips).1.map error.Error =
        some ("failed to delete a record id:" ++ record.ID ++ ": " ++ e.Error) ∧
      (cloudflareDNSBroadcaster.Broadcast b ord ips).1 =
        errors.Wrap (some e) ("failed to delete a record id:" ++ record.ID) ∧
      (cloudflareDNSBroadcaster.Broadcast b ord ips).2 =
        before.map (fun x => apiCall.DeleteDNSRecord zoneID x.2.ID) ++
          [apiCall.DeleteDNSRecord zoneID record.ID]) ∧
    ((cloudflareDNSBroadcaster.Broadcast b ord ips).1 = none ↔
      ∃ (zoneID : String) (records : List DNSRecord),
        b.api.ZoneIDByName b.dnsName = .ok zoneID ∧
        b.api.DNSRecords zoneID { ID := "", Typ := "A", Name := b.dnsName, Content := "" } =
          .ok records ∧
        (∀ call ∈ cloudflareDNSBroadcaster.Broadcast.planned b ord zoneID
            (cloudflareDNSBroadcaster.splitIPs ips records), b.api.run call = none) ∧
        (cloudflareDNSBroadcaster.Broadcast b ord ips).2 =
          cloudflareDNSBroadcaster.Broadcast.planned b ord zoneID
            (cloudflareDNSBroadcaster.splitIPs ips records)) := by
  constructor
  · intro zoneID records before k record after e hzone hfetch hrange hok hfail
    rw [broadcast_of_records b ord ips zoneID records hzone hfetch,
      apply_delete_fail b ord zoneID _ before k record after e hrange hok hfail]
    exact ⟨rfl, rfl, rfl⟩
  · constructor
    · intro hnone
      rcases hzone : b.api.ZoneIDByName b.dnsName with err | zoneID
      · simp [cloudflareDNSBroadcaster.Broadcast, hzone, errors.Wrap] at hnone
      · rcases hfetch : b.api.DNSRecords zoneID
            { ID := "", Typ := "A", Name := b.dnsName, Content := "" } with err | records
        · simp [cloudflareDNSBroadcaster.Broadcast, hzone, hfetch, errors.Wrap] at hnone
        · rw [broadcast_of_records b ord ips zoneID records hzone hfetch] at hnone ⊢
          have hok := (apply_none_iff b ord zoneID _).mp hnone
          exact ⟨zoneID, records, rfl, hfetch, hok, by rw [apply_all_ok b ord zoneID _ hok]⟩
    · rintro ⟨zoneID, records, hzone, hfetch, hok, _⟩
      rw [broadcast_of_records b ord ips zoneID records hzone hfetch,
        apply_all_ok b ord zoneID _ hok]

theorem broadcast_delete_fail_fast_witness :
    (zoneOf [recordA, recordC] ["a1"]).ZoneIDByName "example.com" = .ok "zone1" ∧
    (zoneOf [recordA, recordC] ["a1"]).DNSRecords "zone1"
      { ID := "", Typ := "A", Name := "example.com", Content := "" } = .ok [recordA, recordC] ∧
    storedOrder.range (cloudflareDNSBroadcaster.splitIPs ["1.2.3.9"] [recordA, recordC]).oldIPs =
      [] ++ ("1.2.3.4", recordA) :: [("1.2.3.5", recordC)] ∧
    (zoneOf [recordA, recordC] ["a1"]).DeleteDNSRecord "zone1" recordA.ID =
      some (.base "locked") ∧
    (cloudflareDNSBroadcaster.Broadcast
      { api := zoneOf [recordA, recordC] ["a1"], dnsName := "example.com" } storedOrder
      ["1.2.3.9"]).1.map error.Error =
      some ("failed to delete a record id:" ++ recordA.ID ++ ": " ++
        error.Error (.base "locked")) ∧
    (cloudflareDNSBroadcaster.Broadcast
      { api := zoneOf [recordA, recordC] ["a1"], dnsName := "example.com" } storedOrder
      ["1.2.3.9"]).2 = [apiCall.DeleteDNSRecord "zone1" recordA.ID] :=
  have h := (broadcast_delete_fail_fast
    { api := zoneOf [recordA, recordC] ["a1"], dnsName := "example.com" } storedOrder
    ["1.2.3.9"]).1 "zone1" [recordA, recordC] [] "1.2.3.4" recordA [("1.2.3.5", recordC)]
    (.base "locked") rfl rfl (by decide) (by simp) rfl
  ⟨rfl, rfl, by decide, rfl, h.1, h.2.2⟩

/-! ## The chat message -/

/-- C15: for every DNS name `d` and every endpoint list `ips`,
`execDefaultSlackTemplate(d, ips)` succeeds; it returns "IPs for d were deleted" when
`ips` is empty and "IPs for d changed:", a newline and the addresses of `ips`, joined by
tabs in their order, between two underscores otherwise, with no white space before or
after; the three cases of `TestDefaultSlackTemplate` come out as the test expects. -/
theorem slackTemplate_renders (d : String) (ips : List String) :
    execDefaultSlackTemplate d ips =
      .ok (if ips.length = 0 then "IPs for " ++ d ++ " were deleted"
        else "IPs for " ++ d ++ " changed:\n_" ++ stringsJoin ips "\t" ++ "_") ∧
    execDefaultSlackTemplate "example.com" [] = .ok "IPs for example.com were deleted" ∧
    execDefaultSlackTemplate "www.example.com" ["1.2.3.4"] =
      .ok "IPs for www.example.com changed:\n_1.2.3.4_" ∧
    execDefaultSlackTemplate "app.example.com" ["1.2.3.5", "5.2.3.5", "1.5.3.5"] =
      .ok "IPs for app.example.com changed:\n_1.2.3.5\t5.2.3.5\t1.5.3.5_" := by
  refine ⟨?_, rfl, rfl, rfl⟩
  have h1 : trimText "\n" false true = "" := by decide
  have h2 : trimText "\nIPs for " true false = "IPs for " := by decide
  have h3 : trimText " " false false = " " := by decide
  have h4 : trimText "changed:\n" false false = "changed:\n" := by decide
  have h5 : trimText "were deleted" false false = "were deleted" := by decide
  have h6 : trimText "\n" true false = "" := by decide
  have h7 : trimText "\n_" true false = "_" := by decide
  have h8 : trimText "_\n" false true = "_" := by decide
  have hf : ¬ "IPs" = "DNSName" := by decide
  have hlit : " " ++ "changed:\n" ++ "_" = " changed:\n_" := by decide
  have hcat : ∀ s : String, " " ++ ("changed:\n" ++ ("_" ++ s)) = " changed:\n_" ++ s := by
    intro s
    rw [← String.append_assoc, ← String.append_assoc, hlit]
  cases ips with
  | nil =>
    simp [execDefaultSlackTemplate, execTemplate, slackTmpl, tmplNode.execList, tmplNode.exec,
      tmplArg.eval, tmplValue.print, tmplValue.isTrue, h1, h2, h3, h5, h6, hf,
      String.append_assoc]
  | cons ip rest =>
    simp [execDefaultSlackTemplate, execTemplate, slackTmpl, italicTmpl, tmplNode.execList,
      tmplNode.exec, tmplArg.eval, tmplArg.evalAll, tmplFuncs, join, tmplValue.print,
      tmplValue.isTrue, h1, h2, h3, h4, h6, h7, h8, hf, String.append_assoc]
    rw [hcat]

/-! ## The resolver as a sorted permutation -/

theorem length_IPs (n : ip8s.node) :
    n.IPs.length =
      (n.node.Status.Addresses.filter (fun addr => decide (addr.Typ = NodeExternalIP))).length := by
  rw [node.IPs_eq, List.length_map]

/-- C21: when the listing succeeds, the list returned by `nodeLister.List` is the sorted
permutation of the concatenation of `node.IPs` over the available nodes: it is sorted, it
is a permutation of that concatenation and the only sorted one, its length is the total
number of `ExternalIP` address entries of the available nodes, and every address occurs
in it as often as among those entries. -/
theorem list_sorted_perm {σ : Type} (lab : labels σ) (l : nodeLister σ) (sel : String)
    (label : σ) (nodes : List Node)
    (hlabel : nodeLister.List.label lab sel = .ok label) (hnodes : l.lister label = .ok nodes) :
    ∃ ips, nodeLister.List lab l sel = .ok ips ∧
      ips.Perm ((nodes.filter (fun nod => node.Available ⟨nod⟩)).flatMap
        (fun nod => node.IPs ⟨nod⟩)) ∧
      List.Sorted (fun a b : String => a ≤ b) ips ∧
      (∀ other : List String,
        other.Perm ((nodes.filter (fun nod => node.Available ⟨nod⟩)).flatMap
          (fun nod => node.IPs ⟨nod⟩)) →
        List.Sorted (fun a b : String => a ≤ b) other → other = ips) ∧
      ips.length =
        ((nodes.filter (fun nod => node.Available ⟨nod⟩)).map
          (fun nod => (nod.Status.Addresses.filter
            (fun addr => decide (addr.Typ = NodeExternalIP))).length)).sum ∧
      ∀ a : String, ips.count a =
        ((nodes.filter (fun nod => node.Available ⟨nod⟩)).map
          (fun nod => (node.IPs ⟨nod⟩).count a)).sum := by
  have hloop : nodeLister.List.loop [] nodes =
      (nodes.filter (fun nod => node.Available ⟨nod⟩)).flatMap (fun nod => node.IPs ⟨nod⟩) := by
    rw [listLoop_eq, List.nil_append]
  have hperm := sortStrings_perm (nodeLister.List.loop [] nodes)
  refine ⟨_, list_ok lab l sel label nodes hlabel hnodes, ?_, sortStrings_sorted_le _, ?_, ?_, ?_⟩
  · rw [← hloop]
    exact hperm
  · intro other hother hsorted
    apply sortStrings_unique
    · rw [hloop]
      exact hother
    · exact List.Pairwise.imp (fun {a b} h => (le_iff_stringLE a b).mp h) hsorted
  · rw [hperm.length_eq, hloop, List.length_flatMap]
    congr 1
    apply List.map_congr_left
    intro nod _
    exact length_IPs ⟨nod⟩
  · intro a
    rw [hperm.count_eq, hloop, List.count_flatMap]
    rfl

theorem list_sorted_perm_witness :
    nodeLister.List.label plainLabels "" = .ok "" ∧
    (cacheOf [healthyNode2, unhealthyMultiConditionsNode, healthyNode1, healthyNode2]).lister "" =
      .ok [healthyNode2, unhealthyMultiConditionsNode, healthyNode1, healthyNode2] ∧
    ∃ ips, nodeLister.List plainLabels
        (cacheOf [healthyNode2, unhealthyMultiConditionsNode, healthyNode1, healthyNode2]) "" =
        .ok ips ∧
      ips.Perm (([healthyNode2, unhealthyMultiConditionsNode, healthyNode1, healthyNode2].filter
        (fun nod => node.Available ⟨nod⟩)).flatMap (fun nod => node.IPs ⟨nod⟩)) ∧
      List.Sorted (fun a b : String => a ≤ b) ips :=
  have h := list_sorted_perm plainLabels
    (cacheOf [healthyNode2, unhealthyMultiConditionsNode, healthyNode1, healthyNode2]) "" ""
    [healthyNode2, unhealthyMultiConditionsNode, healthyNode1, healthyNode2] rfl rfl
  ⟨rfl, rfl, h.choose, h.choose_spec.1, h.choose_spec.2.1, h.choose_spec.2.2.1⟩

/-! ## The two renderings of the chat message -/

theorem fmtSprintf_name (d : String) : fmtSprintf "IPs for %s " [d] = "IPs for " ++ d ++ " " :=
  rfl

theorem fmtSprintf_changed (text : String) :
    fmtSprintf "changed:\n_%s_" [text] = "changed:\n_" ++ text ++ "_" :=
  rfl

theorem newMessage_text (b : slackBroadcaster) (ips : List String) :
    (b.newMessage ips).Text =
      if ips.length = 0 then "IPs for " ++ b.dnsName ++ " were deleted"
      else "IPs for " ++ b.dnsName ++ " changed:\n_" ++ stringsJoin ips "\t" ++ "_" := by
  have hdel : " " ++ "were deleted" = " were deleted" := by decide
  have hlit : " " ++ "changed:\n_" = " changed:\n_" := by decide
  have hcat : ∀ s : String, " " ++ ("changed:\n_" ++ s) = " changed:\n_" ++ s := by
    intro s
    rw [← String.append_assoc, hlit]
  by_cases h : ips.length = 0
  · simp only [slackBroadcaster.newMessage, fmtSprintf_name, if_pos h, String.append_assoc, hdel]
  · simp only [slackBroadcaster.newMessage, fmtSprintf_name, fmtSprintf_changed, if_neg h,
      String.append_assoc, hcat]

theorem execDefaultSlackTemplate_eq (d : String) (ips : List String) :
    execDefaultSlackTemplate d ips =
      .ok (if ips.length = 0 then "IPs for " ++ d ++ " were deleted"
        else "IPs for " ++ d ++ " changed:\n_" ++ stringsJoin ips "\t" ++ "_") := by
  have h1 : trimText "\n" false true = "" := by decide
  have h2 : trimText "\nIPs for " true false = "IPs for " := by decide
  have h3 : trimText " " false false = " " := by decide
  have h4 : trimText "changed:\n" false false = "changed:\n" := by decide
  have h5 : trimText "were deleted" false false = "were deleted" := by decide
  have h6 : trimText "\n" true false = "" := by decide
  have h7 : trimText "\n_" true false = "_" := by decide
  have h8 : trimText "_\n" false true = "_" := by decide
  have hf : ¬ "IPs" = "DNSName" := by decide
  have hlit : " " ++ "changed:\n" ++ "_" = " changed:\n_" := by decide
  have hcat : ∀ s : String, " " ++ ("changed:\n" ++ ("_" ++ s)) = " changed:\n_" ++ s := by
    intro s
    rw [← String.append_assoc, ← String.append_assoc, hlit]
  cases ips with
  | nil =>
    simp [execDefaultSlackTemplate, execTemplate, slackTmpl, tmplNode.execList, tmplNode.exec,
      tmplArg.eval, tmplValue.print, tmplValue.isTrue, h1, h2, h3, h5, h6, hf,
      String.append_assoc]
  | cons ip rest =>
    simp [execDefaultSlackTemplate, execTemplate, slackTmpl, italicTmpl, tmplNode.execList,
      tmplNode.exec, tmplArg.eval, tmplArg.evalAll, tmplFuncs, join, tmplValue.print,
      tmplValue.isTrue, h1, h2, h3, h4, h6, h7, h8, hf, String.append_assoc]
    rw [hcat]

/-- C22: the two renderings of the chat message agree: for every DNS name `d` and every
endpoint list `ips`, the text that `slackBroadcaster.newMessage` builds with `dnsName = d`
is the string that `execDefaultSlackTemplate(d, ips)` returns, which succeeds; the text
is sent as one markdown text object. -/
theorem newMessage_eq_template (d roomID : String) (ips : List String) :
    execDefaultSlackTemplate d ips =
      .ok (slackBroadcaster.newMessage { roomID := roomID, dnsName := d } ips).Text ∧
    (slackBroadcaster.newMessage { roomID := roomID, dnsName := d } ips).Typ = MarkdownType ∧
    (∀ b : slackBroadcaster,
      execDefaultSlackTemplate b.dnsName ips = .ok (b.newMessage ips).Text) := by
  refine ⟨?_, rfl, ?_⟩
  · rw [execDefaultSlackTemplate_eq, newMessage_text]
  · intro b
    rw [execDefaultSlackTemplate_eq, newMessage_text]

end ip8s
